import Mathlib

/-!
Verification of the real-time room broadcast subsystem of the fadmann
campus-chat application (`backend/websocket.py`, `backend/rate_limit.py`,
`backend/validation.py` and the WebSocket / reaction handlers of
`backend/routes.py`).

Modelling conventions (shallow embedding):
- Python `dict` values are association lists `List (k × v)` that keep the
  dict's insertion order; `d[k] = v` replaces the entry in place when the
  key exists and appends otherwise (`aset`), `del d[k]` removes the entry
  (`adel`), `k in d` is `ahas`.  All registry / typing / reaction dicts
  have pairwise distinct keys, which the well-formedness predicates below
  record.
- Python `str` values that the code manipulates (message content, emoji)
  are `List Char`; `str.strip()` is `pstrip` (drop whitespace from both
  ends), `len` is `List.length`, slicing `s[:50]` is `List.take 50`.
  Opaque labels (usernames, error details, close reasons) stay `String`.
- `datetime` instants are integers (`Int`); `timedelta(seconds = w)` is
  subtraction by `w`.  Only ordering and differences of instants matter
  to the code.
- A network send either succeeds or raises; a broadcast pass is therefore
  parametrised by a predicate `fails : Nat → Bool` saying which members'
  sends raise during that pass.  Functions return the events they sent
  instead of performing IO.
-/

/-! ## Association lists: the model of Python dicts -/

def alookup {κ α : Type} [DecidableEq κ] (k : κ) : List (κ × α) → Option α
  | [] => none
  | p :: rest => if p.1 = k then some p.2 else alookup k rest

def aset {κ α : Type} [DecidableEq κ] (k : κ) (v : α) : List (κ × α) → List (κ × α)
  | [] => [(k, v)]
  | p :: rest => if p.1 = k then (k, v) :: rest else p :: aset k v rest

def adel {κ α : Type} [DecidableEq κ] (k : κ) : List (κ × α) → List (κ × α)
  | [] => []
  | p :: rest => if p.1 = k then rest else p :: adel k rest

def akeys {κ α : Type} (l : List (κ × α)) : List κ := l.map Prod.fst

def ahas {κ α : Type} [DecidableEq κ] (k : κ) (l : List (κ × α)) : Bool :=
  (alookup k l).isSome

section AListLemmas

variable {κ α : Type} [DecidableEq κ]

theorem alookup_eq_none_iff {k : κ} {l : List (κ × α)} :
    alookup k l = none ↔ k ∉ akeys l := by
  induction l with
  | nil => simp [alookup, akeys]
  | cons p rest ih =>
    by_cases h : p.1 = k <;> simp [alookup, akeys, h, ih]
    · tauto

theorem alookup_isSome_iff {k : κ} {l : List (κ × α)} :
    (alookup k l).isSome = true ↔ k ∈ akeys l := by
  rw [Option.isSome_iff_ne_none]
  constructor
  · intro h
    by_contra hmem
    exact h (alookup_eq_none_iff.2 hmem)
  · intro h hn
    exact alookup_eq_none_iff.1 hn h

theorem ahas_iff_mem {k : κ} {l : List (κ × α)} :
    ahas k l = true ↔ k ∈ akeys l := alookup_isSome_iff

theorem alookup_aset_self {k : κ} {v : α} {l : List (κ × α)} :
    alookup k (aset k v l) = some v := by
  induction l with
  | nil => simp [aset, alookup]
  | cons p rest ih =>
    by_cases h : p.1 = k <;> simp [aset, alookup, h, ih]

theorem alookup_aset_ne {k k' : κ} {v : α} {l : List (κ × α)} (h : k' ≠ k) :
    alookup k' (aset k v l) = alookup k' l := by
  have hne : ¬ (k = k') := fun hh => h hh.symm
  induction l with
  | nil => simp [aset, alookup, hne]
  | cons p rest ih =>
    by_cases hp : p.1 = k
    · simp [aset, alookup, hp, hne]
    · by_cases hp' : p.1 = k'
      · simp [aset, alookup, hp, hp', h]
      · simp [aset, alookup, hp, hp', ih]

theorem alookup_adel_ne {k k' : κ} {l : List (κ × α)} (hnd : (akeys l).Nodup)
    (h : k' ≠ k) : alookup k' (adel k l) = alookup k' l := by
  induction l with
  | nil => simp [adel]
  | cons p rest ih =>
    simp only [akeys, List.map_cons, List.nodup_cons] at hnd
    by_cases hp : p.1 = k
    · subst hp
      have hne : ¬ (p.1 = k') := fun hh => h hh.symm
      simp [adel, alookup, hne]
    · by_cases hp' : p.1 = k'
      · simp [adel, alookup, hp, hp', h]
      · simp [adel, alookup, hp, hp', ih hnd.2]

theorem alookup_adel_self {k : κ} {l : List (κ × α)} (hnd : (akeys l).Nodup) :
    alookup k (adel k l) = none := by
  induction l with
  | nil => simp [adel, alookup]
  | cons p rest ih =>
    simp only [akeys, List.map_cons, List.nodup_cons] at hnd
    by_cases hp : p.1 = k
    · subst hp
      simp only [adel, if_pos rfl]
      exact alookup_eq_none_iff.2 hnd.1
    · simp [adel, alookup, hp, ih hnd.2]

theorem akeys_aset {k : κ} {v : α} {l : List (κ × α)} :
    akeys (aset k v l) = if ahas k l then akeys l else akeys l ++ [k] := by
  induction l with
  | nil => simp [aset, akeys, ahas, alookup]
  | cons p rest ih =>
    by_cases h : p.1 = k
    · simp [aset, akeys, ahas, alookup, h]
    · simp only [aset, if_neg h, akeys, List.map_cons, ahas, alookup, h, if_false]
      simp only [akeys, ahas] at ih
      by_cases h2 : (alookup k rest).isSome <;> simp [h2] at ih ⊢ <;> simp [ih]

theorem akeys_aset_nodup {k : κ} {v : α} {l : List (κ × α)}
    (hnd : (akeys l).Nodup) : (akeys (aset k v l)).Nodup := by
  rw [akeys_aset]
  by_cases h : ahas k l
  · rw [if_pos h]; exact hnd
  · have hk : k ∉ akeys l := fun hm => h (ahas_iff_mem.2 hm)
    simp only [h, if_false]
    simpa [List.nodup_append] using ⟨hnd, hk⟩

theorem akeys_adel_sublist {k : κ} {l : List (κ × α)} :
    (akeys (adel k l)).Sublist (akeys l) := by
  induction l with
  | nil => simp [adel]
  | cons p rest ih =>
    by_cases h : p.1 = k
    · rw [adel, if_pos h]
      exact List.sublist_cons_self p.1 (akeys rest)
    · simpa [adel, akeys, h] using ih.cons₂ p.1

theorem akeys_adel_nodup {k : κ} {l : List (κ × α)}
    (hnd : (akeys l).Nodup) : (akeys (adel k l)).Nodup :=
  hnd.sublist akeys_adel_sublist

theorem aset_of_alookup_eq {k : κ} {v : α} {l : List (κ × α)}
    (h : alookup k l = some v) : aset k v l = l := by
  induction l with
  | nil => simp [alookup] at h
  | cons p rest ih =>
    by_cases hp : p.1 = k
    · simp only [alookup, if_pos hp] at h
      obtain rfl := Option.some.inj h
      simp only [aset, if_pos hp]
      rw [← hp]
    · simp only [alookup, if_neg hp] at h
      simp [aset, hp, ih h]

theorem adel_of_not_mem {k : κ} {l : List (κ × α)}
    (h : k ∉ akeys l) : adel k l = l := by
  induction l with
  | nil => rfl
  | cons p rest ih =>
    simp only [akeys, List.map_cons, List.mem_cons] at h
    push_neg at h
    have hne : ¬ p.1 = k := fun hh => h.1 hh.symm
    simp [adel, hne, ih h.2]

end AListLemmas

/-! ## Python strings: strip, length, slicing -/

/-- Python `str.strip()`: drop whitespace from both ends of the string. -/
def pstrip (s : List Char) : List Char :=
  ((s.dropWhile Char.isWhitespace).reverse.dropWhile Char.isWhitespace).reverse

theorem dropWhile_head_false {p : Char → Bool} {l : List Char} {a : Char}
    (h : (l.dropWhile p).head? = some a) : p a = false := by
  induction l with
  | nil => simp [List.dropWhile] at h
  | cons b rest ih =>
    by_cases hb : p b
    · exact ih (by simpa [List.dropWhile, hb] using h)
    · simp only [List.dropWhile, hb, List.head?_cons] at h
      obtain rfl := Option.some.inj h
      simpa using hb

theorem dropWhile_of_head_false {p : Char → Bool} {l : List Char}
    (h : ∀ a, l.head? = some a → p a = false) : l.dropWhile p = l := by
  cases l with
  | nil => rfl
  | cons b rest => simp [List.dropWhile, h b rfl]

theorem dropWhile_getLast {p : Char → Bool} {l : List Char}
    (h : l.dropWhile p ≠ []) : (l.dropWhile p).getLast? = l.getLast? := by
  induction l with
  | nil => simp [List.dropWhile] at h
  | cons b rest ih =>
    by_cases hb : p b
    · have hne : rest.dropWhile p ≠ [] := by simpa [List.dropWhile, hb] using h
      have hrest : rest ≠ [] := by
        intro hr; subst hr; simp [List.dropWhile] at hne
      rw [List.dropWhile_cons, if_pos hb, ih hne]
      cases rest with
      | nil => exact absurd rfl hrest
      | cons c t => simp
    · simp [List.dropWhile, hb]

/-- `pstrip` never begins with whitespace. -/
theorem pstrip_head_false {s : List Char} {a : Char}
    (h : (pstrip s).head? = some a) : a.isWhitespace = false := by
  unfold pstrip at h
  rw [List.head?_reverse] at h
  set u := (s.dropWhile Char.isWhitespace).reverse with hu
  have hne : u.dropWhile Char.isWhitespace ≠ [] := by
    intro hnil
    rw [hnil] at h
    simp at h
  rw [dropWhile_getLast hne] at h
  rw [hu, List.getLast?_reverse] at h
  exact dropWhile_head_false h

/-- `pstrip` never ends with whitespace. -/
theorem pstrip_getLast_false {s : List Char} {a : Char}
    (h : (pstrip s).getLast? = some a) : a.isWhitespace = false := by
  unfold pstrip at h
  rw [List.getLast?_reverse] at h
  exact dropWhile_head_false h

/-- Stripping is idempotent, as for Python's `str.strip`. -/
theorem pstrip_idem (s : List Char) : pstrip (pstrip s) = pstrip s := by
  have h1 : (pstrip s).dropWhile Char.isWhitespace = pstrip s :=
    dropWhile_of_head_false (fun a ha => pstrip_head_false ha)
  show (((pstrip s).dropWhile Char.isWhitespace).reverse.dropWhile
      Char.isWhitespace).reverse = pstrip s
  rw [h1]
  have h2 : (pstrip s).reverse.dropWhile Char.isWhitespace = (pstrip s).reverse := by
    refine dropWhile_of_head_false (fun a ha => ?_)
    rw [List.head?_reverse] at ha
    exact pstrip_getLast_false ha
  rw [h2, List.reverse_reverse]

/-! ## Rate limiter (`backend/rate_limit.py`) -/

/-- `MAX_MESSAGES_PER_WINDOW = 10`. -/
def MAX_MESSAGES_PER_WINDOW : Nat := 10

/-- `TIME_WINDOW_SECONDS = 60`. -/
def TIME_WINDOW_SECONDS : Int := 60

/-- Result of one `check_rate_limit` call: the returned pair and the new
per-user timestamp list stored back into `user_message_timestamps`. -/
structure RateResult where
  allowed : Bool
  detail : Option String
  stored : List Int
  deriving Repr, DecidableEq

/-- `check_rate_limit(user_id)` acting on the calling user's stored
timestamp list, with `now = datetime.utcnow()` passed explicitly. -/
def check_rate_limit (now : Int) (timestamps : List Int) : RateResult :=
  let window_start := now - TIME_WINDOW_SECONDS
  let recent_messages := timestamps.filter (fun ts => window_start < ts)
  if MAX_MESSAGES_PER_WINDOW ≤ recent_messages.length then
    { allowed := false
      detail := some "Rate limit exceeded. Maximum 10 messages per 60 seconds."
      stored := recent_messages }
  else
    { allowed := true, detail := none, stored := recent_messages ++ [now] }

/-! ## Reaction maps and the toggle algorithm (`backend/routes.py`) -/

/-- An emoji key: a stripped Python string. -/
abbrev Emoji := List Char

/-- A message's reaction map: Python dict from emoji to list of user ids. -/
abbrev Reactions := List (Emoji × List Nat)

/-- Python `list.remove(x)`: delete the first occurrence.  (The real call
raises when `x` is absent; the code only invokes it after an `in` check.) -/
def listRemove (x : Nat) : List Nat → List Nat
  | [] => []
  | y :: rest => if y = x then rest else y :: listRemove x rest

/-- The shared toggle algorithm of `toggle_reaction` (routes.py 437-449)
and the push-stream reaction branch (routes.py 807-818). -/
def toggle_reaction_core (uid : Nat) (emoji : Emoji) (reactions : Reactions) :
    Reactions :=
  let reactions := if ahas emoji reactions then reactions else aset emoji [] reactions
  let cur := (alookup emoji reactions).getD []
  if cur.contains uid then
    let cur' := listRemove uid cur
    if cur'.isEmpty then adel emoji reactions
    else aset emoji cur' reactions
  else aset emoji (cur ++ [uid]) reactions

/-- Whether `uid` currently reacts with `emoji` (the reaction map read as
emoji → set of identities). -/
def reacted (reactions : Reactions) (emoji : Emoji) (uid : Nat) : Bool :=
  ((alookup emoji reactions).getD []).contains uid

/-- Whether the emoji key is present in the reaction dict. -/
def hasEmoji (reactions : Reactions) (emoji : Emoji) : Bool :=
  ahas emoji reactions

/-- Well-formedness the code maintains for reaction dicts: distinct emoji
keys, no duplicate identity in a list, no empty list kept as a value. -/
def ReactionsWF (reactions : Reactions) : Prop :=
  (akeys reactions).Nodup ∧ ∀ p ∈ reactions, p.2.Nodup ∧ p.2 ≠ []

/-! ## Records and events -/

structure UserRec where
  id : Nat
  username : String
  display_name : String
  deriving Repr, DecidableEq

structure MsgRec where
  id : Nat
  room_id : Nat
  user_id : Nat
  content : List Char
  message_type : String
  reply_to : Option Nat
  reactions : Option Reactions
  created_at : Int
  deriving Repr, DecidableEq

/-- The `reply_to_message` summary attached to broadcast message events. -/
structure ReplyInfo where
  id : Nat
  content : List Char
  display_name : String
  deriving Repr, DecidableEq

/-- The `message` object of a broadcast chat event (routes.py 737-751). -/
structure MsgPayload where
  id : Nat
  user_id : Nat
  username : String
  display_name : String
  content : List Char
  created_at : Int
  message_type : String
  reactions : Reactions
  reply_to : Option Nat
  reply_to_message : Option ReplyInfo
  deriving Repr, DecidableEq

/-- Outbound event shapes (spec section 6). -/
inductive Event where
  | error (message : String)
  | chat (message : MsgPayload)
  | typingEvent (user_id : Nat) (username : String) (is_typing : Bool) (timestamp : Int)
  | reaction_update (message_id : Nat) (reactions : Reactions)
  | presence (event_type : String) (user_id : Nat) (timestamp : Int)
  deriving Repr, DecidableEq

/-! ## Connection registry (`backend/websocket.py`) -/

/-- `active_connections : dict room_id → dict user_id → websocket`;
websocket handles are modelled as numbers. -/
abbrev Registry := List (Nat × List (Nat × Nat))

/-- Dicts have distinct keys at both levels. -/
def RegWF (st : Registry) : Prop :=
  (akeys st).Nodup ∧ ∀ p ∈ st, (akeys p.2).Nodup

/-- `ConnectionManager.get_room_users` (websocket.py 247-261). -/
def get_room_users (room_id : Nat) (st : Registry) : List Nat :=
  match alookup room_id st with
  | none => []
  | some members => akeys members

/-- `ConnectionManager.disconnect` (websocket.py 101-120). -/
def disconnect (room_id user_id : Nat) (st : Registry) : Registry :=
  match alookup room_id st with
  | none => st
  | some members =>
    if ahas user_id members then
      let members' := adel user_id members
      if members'.isEmpty then adel room_id st
      else aset room_id members' st
    else st

/-- `ConnectionManager.broadcast_to_room` (websocket.py 138-184).  `fails`
says which members' sends raise during this pass; the returned list holds
the `(user, event)` deliveries that succeeded, in room iteration order. -/
def broadcast_to_room (message : Event) (room_id : Nat)
    (exclude_user_id : Option Nat) (fails : Nat → Bool) (st : Registry) :
    Registry × List (Nat × Event) :=
  match alookup room_id st with
  | none => (st, [])
  | some members =>
    let recipients := members.filter (fun p => exclude_user_id ≠ some p.1)
    let delivered := (recipients.filter (fun p => !fails p.1)).map
      (fun p => (p.1, message))
    let disconnected := (recipients.filter (fun p => fails p.1)).map Prod.fst
    (disconnected.foldl (fun s u => disconnect room_id u s) st, delivered)

/-- `ConnectionManager.broadcast_user_event` (websocket.py 186-203). -/
def broadcast_user_event (room_id user_id : Nat) (event_type : String)
    (now : Int) (fails : Nat → Bool) (st : Registry) :
    Registry × List (Nat × Event) :=
  broadcast_to_room (Event.presence event_type user_id now) room_id
    (some user_id) fails st

structure ConnectResult where
  st : Registry
  closed : List (Nat × String)
  sent : List (Nat × Event)

/-- The registration part of `ConnectionManager.connect`
(websocket.py 76-95): close and drop a stale handle for the pair, accept
the new socket, initialize the room dict if missing, and install the new
handle.  The second component lists the handles closed with their close
reason. -/
def connect_register (websocket room_id user_id : Nat) (st : Registry) :
    Registry × List (Nat × String) :=
  let stale :=
    match alookup room_id st with
    | some members =>
      match alookup user_id members with
      | some old_websocket =>
        (aset room_id (adel user_id members) st, [(old_websocket, "Reconnecting")])
      | none => (st, ([] : List (Nat × String)))
    | none => (st, ([] : List (Nat × String)))
  let st1 := stale.1
  let st2 := if ahas room_id st1 then st1 else st1 ++ [(room_id, [])]
  let st3 :=
    match alookup room_id st2 with
    | some members => aset room_id (aset user_id websocket members) st2
    | none => st2
  (st3, stale.2)

/-- `ConnectionManager.connect` (websocket.py 56-99): register the new
handle (superseding a stale one), then emit the join event to the other
members. -/
def connect (websocket room_id user_id : Nat) (now : Int) (fails : Nat → Bool)
    (st : Registry) : ConnectResult :=
  let reg := connect_register websocket room_id user_id st
  let joined := broadcast_user_event room_id user_id "user_joined" now fails reg.1
  ⟨joined.1, reg.2, joined.2⟩

/-! ## Typing tracker (`backend/websocket.py` 205-245) -/

/-- `typing_users : dict room_id → dict user_id → timestamp`. -/
abbrev TypingMap := List (Nat × List (Nat × Int))

/-- `ConnectionManager.handle_typing`: update `typing_users`, then
broadcast a typing event to the room excluding the typer. -/
def handle_typing (room_id user_id : Nat) (is_typing : Bool) (username : String)
    (now : Int) (typing_users : TypingMap) (st : Registry) (fails : Nat → Bool) :
    TypingMap × Registry × List (Nat × Event) :=
  let typing_users' :=
    if is_typing then
      let tu := if ahas room_id typing_users then typing_users
                else aset room_id [] typing_users
      aset room_id (aset user_id now ((alookup room_id tu).getD [])) tu
    else
      match alookup room_id typing_users with
      | some m =>
        if ahas user_id m then aset room_id (adel user_id m) typing_users
        else typing_users
      | none => typing_users
  let out := broadcast_to_room
    (Event.typingEvent user_id username is_typing now) room_id (some user_id) fails st
  (typing_users', out.1, out.2)

/-- The `WebSocketDisconnect` cleanup of the session loop
(routes.py 836-841): deregister from the connection registry and emit a
`user_left` presence event.  Nothing in this path touches `typing_users`,
which is therefore returned unchanged. -/
def disconnect_cleanup (room_id user_id : Nat) (now : Int) (fails : Nat → Bool)
    (st : Registry) (typing_users : TypingMap) :
    Registry × TypingMap × List (Nat × Event) :=
  let st1 := disconnect room_id user_id st
  let out := broadcast_user_event room_id user_id "user_left" now fails st1
  (out.1, typing_users, out.2)

/-! ## Registry operation sequences (for the no-empty-room invariant) -/

inductive RegOp where
  | conn (websocket room_id user_id : Nat) (now : Int) (fails : Nat → Bool)
  | disc (room_id user_id : Nat)
  | bcast (message : Event) (room_id : Nat) (exclude_user_id : Option Nat)
      (fails : Nat → Bool)

def applyRegOp (st : Registry) : RegOp → Registry
  | .conn ws r u now fails => (connect ws r u now fails st).st
  | .disc r u => disconnect r u st
  | .bcast m r e fails => (broadcast_to_room m r e fails st).1

/-- Every room key present in the registry holds a non-empty member dict. -/
def roomsNonempty (st : Registry) : Bool :=
  st.all (fun p => !p.2.isEmpty)

/-! ## C3 / C10: the rate limiter -/

/-- C3: `check_rate_limit` is a sliding window with cap `N = 10` and
window `W = 60` seconds: each call first discards the identity's stored
timestamps older than `W` seconds, rejects with a detail string and
records nothing when the remaining count is at or above `N`, and
otherwise records the current time and allows.  Hence a call that sees
`N` timestamps still inside the window (the 11th call after 10 admitted
ones) is rejected, and once more than `W` seconds have passed since the
earliest recorded call, admission resumes. -/
theorem check_rate_limit_sliding_window (now : Int) (timestamps : List Int) :
    ((check_rate_limit now timestamps).allowed = true ↔
      (timestamps.filter (fun ts => now - TIME_WINDOW_SECONDS < ts)).length
        < MAX_MESSAGES_PER_WINDOW)
    ∧ ((check_rate_limit now timestamps).allowed = false →
      (check_rate_limit now timestamps).detail =
        some "Rate limit exceeded. Maximum 10 messages per 60 seconds." ∧
      (check_rate_limit now timestamps).stored =
        timestamps.filter (fun ts => now - TIME_WINDOW_SECONDS < ts))
    ∧ ((check_rate_limit now timestamps).allowed = true →
      (check_rate_limit now timestamps).detail = none ∧
      (check_rate_limit now timestamps).stored =
        timestamps.filter (fun ts => now - TIME_WINDOW_SECONDS < ts) ++ [now])
    ∧ ((timestamps.filter (fun ts => now - TIME_WINDOW_SECONDS < ts)).length =
        MAX_MESSAGES_PER_WINDOW →
      (check_rate_limit now timestamps).allowed = false)
    ∧ (timestamps.length ≤ MAX_MESSAGES_PER_WINDOW →
      (∃ e ∈ timestamps, e + TIME_WINDOW_SECONDS < now) →
      (check_rate_limit now timestamps).allowed = true) := by
  set recent := timestamps.filter (fun ts => now - TIME_WINDOW_SECONDS < ts) with hrec
  by_cases hc : MAX_MESSAGES_PER_WINDOW ≤ recent.length
  · have hfun : check_rate_limit now timestamps =
        { allowed := false
          detail := some "Rate limit exceeded. Maximum 10 messages per 60 seconds."
          stored := recent } := by
      simp only [check_rate_limit, ← hrec, if_pos hc]
    refine ⟨?_, ?_, ?_, ?_, ?_⟩
    · rw [hfun]; simp; omega
    · intro _; rw [hfun]; exact ⟨rfl, rfl⟩
    · intro hall; rw [hfun] at hall; simp at hall
    · intro _; rw [hfun]
    · intro hlen ⟨e, hmem, hold⟩
      exfalso
      have h1 : recent.length < timestamps.length := by
        rw [hrec]
        refine List.length_filter_lt_length_iff_exists.2 ⟨e, hmem, ?_⟩
        simp only [decide_eq_true_eq]
        omega
      have h2 := hc
      simp only [MAX_MESSAGES_PER_WINDOW] at h2 hlen
      omega
  · have hfun : check_rate_limit now timestamps =
        { allowed := true, detail := none, stored := recent ++ [now] } := by
      simp only [check_rate_limit, ← hrec, if_neg hc]
    refine ⟨?_, ?_, ?_, ?_, ?_⟩
    · rw [hfun]; simp; omega
    · intro hall; rw [hfun] at hall; simp at hall
    · intro _; rw [hfun]; exact ⟨rfl, rfl⟩
    · intro heq; exfalso; exact hc (le_of_eq heq.symm)
    · intro _ _; rw [hfun]

/-- C3 witness: a concrete call with one expired timestamp among ten is
admitted. -/
theorem check_rate_limit_sliding_window_witness :
    (check_rate_limit 101 [10, 45, 50, 55, 60, 65, 70, 75, 80, 85]).allowed = true := by
  have h := check_rate_limit_sliding_window 101 [10, 45, 50, 55, 60, 65, 70, 75, 80, 85]
  exact h.2.2.2.2 (by decide) ⟨10, by decide, by decide⟩

/-- C10: after any `check_rate_limit` call on a stored list of at most
`N = 10` timestamps, the stored list still has at most `N` entries, every
stored entry lies inside the current 60-second window, and a rejected
call never grows the list. -/
theorem check_rate_limit_storage_bounded (now : Int) (timestamps : List Int)
    (h : timestamps.length ≤ MAX_MESSAGES_PER_WINDOW) :
    (check_rate_limit now timestamps).stored.length ≤ MAX_MESSAGES_PER_WINDOW
    ∧ (∀ t ∈ (check_rate_limit now timestamps).stored,
        now - TIME_WINDOW_SECONDS < t)
    ∧ ((check_rate_limit now timestamps).allowed = false →
        (check_rate_limit now timestamps).stored.length ≤ timestamps.length) := by
  set recent := timestamps.filter (fun ts => now - TIME_WINDOW_SECONDS < ts) with hrec
  have hle : recent.length ≤ timestamps.length := by
    rw [hrec]; exact List.length_filter_le _ _
  have hmem : ∀ t ∈ recent, now - TIME_WINDOW_SECONDS < t := by
    intro t ht
    rw [hrec] at ht
    have := (List.mem_filter.1 ht).2
    simpa using this
  by_cases hc : MAX_MESSAGES_PER_WINDOW ≤ recent.length
  · have hfun : check_rate_limit now timestamps =
        { allowed := false
          detail := some "Rate limit exceeded. Maximum 10 messages per 60 seconds."
          stored := recent } := by
      simp only [check_rate_limit, ← hrec, if_pos hc]
    rw [hfun]
    exact ⟨le_trans hle h, hmem, fun _ => hle⟩
  · have hfun : check_rate_limit now timestamps =
        { allowed := true, detail := none, stored := recent ++ [now] } := by
      simp only [check_rate_limit, ← hrec, if_neg hc]
    rw [hfun]
    refine ⟨?_, ?_, ?_⟩
    · simp only [List.length_append, List.length_singleton]
      simp only [MAX_MESSAGES_PER_WINDOW] at hc ⊢
      omega
    · intro t ht
      rcases List.mem_append.1 ht with hl | hr
      · exact hmem t hl
      · have : t = now := by simpa using hr
        subst this
        simp only [TIME_WINDOW_SECONDS]
        omega
    · intro hall; simp at hall

/-- C10 witness: a full window of ten fresh timestamps stays at ten
entries, all inside the window. -/
theorem check_rate_limit_storage_bounded_witness :
    (check_rate_limit 100 [45, 50, 55, 60, 65, 70, 75, 80, 85, 90]).stored.length ≤
      MAX_MESSAGES_PER_WINDOW := by
  exact (check_rate_limit_storage_bounded 100
    [45, 50, 55, 60, 65, 70, 75, 80, 85, 90] (by decide)).1

/-! ## Further association-list lemmas for the registry proofs -/

section AListLemmas2

variable {κ α : Type} [DecidableEq κ]

theorem adel_sublist {k : κ} {l : List (κ × α)} : (adel k l).Sublist l := by
  induction l with
  | nil => simp [adel]
  | cons p rest ih =>
    by_cases h : p.1 = k
    · rw [adel, if_pos h]
      exact List.sublist_cons_self p rest
    · rw [adel, if_neg h]
      exact ih.cons₂ p

theorem mem_adel {k : κ} {q : κ × α} {l : List (κ × α)} (h : q ∈ adel k l) :
    q ∈ l := adel_sublist.mem h

theorem aset_ne_nil {k : κ} {v : α} {l : List (κ × α)} : aset k v l ≠ [] := by
  cases l with
  | nil => simp [aset]
  | cons p rest =>
    by_cases h : p.1 = k <;> simp [aset, h]

theorem mem_aset {k : κ} {v : α} {q : κ × α} {l : List (κ × α)}
    (h : q ∈ aset k v l) : q = (k, v) ∨ q ∈ l := by
  induction l with
  | nil =>
    simp only [aset, List.mem_singleton] at h
    exact Or.inl h
  | cons p rest ih =>
    by_cases hp : p.1 = k
    · rw [aset, if_pos hp] at h
      rcases List.mem_cons.1 h with hq | hq
      · exact Or.inl hq
      · exact Or.inr (List.mem_cons_of_mem p hq)
    · rw [aset, if_neg hp] at h
      rcases List.mem_cons.1 h with hq | hq
      · exact Or.inr (hq ▸ List.mem_cons_self p rest)
      · rcases ih hq with hl | hl
        · exact Or.inl hl
        · exact Or.inr (List.mem_cons_of_mem p hl)

theorem mem_aset_nodup {k : κ} {v : α} {q : κ × α} {l : List (κ × α)}
    (hnd : (akeys l).Nodup) (h : q ∈ aset k v l) :
    q = (k, v) ∨ (q ∈ l ∧ q.1 ≠ k) := by
  induction l with
  | nil =>
    simp only [aset, List.mem_singleton] at h
    exact Or.inl h
  | cons p rest ih =>
    simp only [akeys, List.map_cons, List.nodup_cons] at hnd
    by_cases hp : p.1 = k
    · rw [aset, if_pos hp] at h
      rcases List.mem_cons.1 h with hq | hq
      · exact Or.inl hq
      · right
        refine ⟨List.mem_cons_of_mem p hq, ?_⟩
        intro hk
        apply hnd.1
        rw [hp, ← hk]
        exact List.mem_map_of_mem Prod.fst hq
    · rw [aset, if_neg hp] at h
      rcases List.mem_cons.1 h with hq | hq
      · exact Or.inr ⟨hq ▸ List.mem_cons_self p rest, hq ▸ hp⟩
      · rcases ih hnd.2 hq with hl | ⟨hl, hne⟩
        · exact Or.inl hl
        · exact Or.inr ⟨List.mem_cons_of_mem p hl, hne⟩

theorem alookup_mem {k : κ} {v : α} {l : List (κ × α)}
    (h : alookup k l = some v) : (k, v) ∈ l := by
  induction l with
  | nil => simp [alookup] at h
  | cons p rest ih =>
    by_cases hp : p.1 = k
    · rw [alookup, if_pos hp] at h
      obtain rfl := Option.some.inj h
      have hpq : (k, p.2) = p := by rw [← hp]
      rw [hpq]
      exact List.mem_cons_self p rest
    · rw [alookup, if_neg hp] at h
      exact List.mem_cons_of_mem p (ih h)

theorem filter_keys_nil {k : κ} {l : List (κ × α)} (h : k ∉ akeys l) :
    l.filter (fun p => p.1 = k) = [] := by
  rw [List.filter_eq_nil_iff]
  intro q hq
  simp only [decide_eq_true_eq]
  intro hk
  exact h (hk ▸ List.mem_map_of_mem Prod.fst hq)

theorem filter_keys_singleton {k : κ} {v : α} {l : List (κ × α)}
    (hnd : (akeys l).Nodup) (h : alookup k l = some v) :
    l.filter (fun p => p.1 = k) = [(k, v)] := by
  induction l with
  | nil => simp [alookup] at h
  | cons p rest ih =>
    simp only [akeys, List.map_cons, List.nodup_cons] at hnd
    by_cases hp : p.1 = k
    · rw [alookup, if_pos hp] at h
      obtain rfl := Option.some.inj h
      rw [List.filter_cons_of_pos (by simpa using hp),
        filter_keys_nil (hp ▸ hnd.1)]
      have : p = (k, p.2) := by rw [← hp]
      rw [← this]
    · rw [alookup, if_neg hp] at h
      rw [List.filter_cons_of_neg (by simpa using hp)]
      exact ih hnd.2 h

omit [DecidableEq κ] in
theorem map_fst_filter_key (p : κ → Bool) (l : List (κ × α)) :
    (l.filter (fun q => p q.1)).map Prod.fst = (l.map Prod.fst).filter p := by
  induction l with
  | nil => rfl
  | cons q rest ih =>
    by_cases h : p q.1
    · simp [List.filter_cons, h, ih]
    · simp [List.filter_cons, h, ih]

end AListLemmas2

/-! ## Registry helper lemmas -/

/-- The websocket currently held for (room, identity), if any. -/
def lookupMember (room_id user_id : Nat) (st : Registry) : Option Nat :=
  match alookup room_id st with
  | none => none
  | some members => alookup user_id members

/-- Number of registry entries for the (room, identity) pair, counted
across every room container and member entry. -/
def pairEntries (room_id user_id : Nat) (st : Registry) : Nat :=
  ((st.filter (fun p => p.1 = room_id)).map
    (fun p => (p.2.filter (fun q => q.1 = user_id)).length)).sum

theorem RegWF.keys_nodup {st : Registry} (h : RegWF st) : (akeys st).Nodup := h.1

theorem RegWF.members_nodup {st : Registry} (h : RegWF st) {room_id : Nat}
    {members : List (Nat × Nat)} (hm : alookup room_id st = some members) :
    (akeys members).Nodup := h.2 _ (alookup_mem hm)

/-- Unfolding equation for `disconnect` when the room container exists. -/
theorem disconnect_eq_some {room_id user_id : Nat} {st : Registry}
    {members : List (Nat × Nat)} (hm : alookup room_id st = some members) :
    disconnect room_id user_id st =
      (if ahas user_id members then
        (if (adel user_id members).isEmpty then adel room_id st
         else aset room_id (adel user_id members) st)
      else st) := by
  unfold disconnect
  rw [hm]

/-- Unfolding equation for `disconnect` when the room container is absent. -/
theorem disconnect_eq_none {room_id user_id : Nat} {st : Registry}
    (hm : alookup room_id st = none) :
    disconnect room_id user_id st = st := by
  unfold disconnect
  rw [hm]

/-- `disconnect` keeps the dicts well-formed. -/
theorem disconnect_wf {room_id user_id : Nat} {st : Registry} (hwf : RegWF st) :
    RegWF (disconnect room_id user_id st) := by
  cases hm : alookup room_id st with
  | none => rw [disconnect_eq_none hm]; exact hwf
  | some members =>
    rw [disconnect_eq_some hm]
    by_cases hu : ahas user_id members
    · rw [if_pos hu]
      by_cases he : (adel user_id members).isEmpty
      · rw [if_pos he]
        exact ⟨akeys_adel_nodup hwf.1, fun p hp => hwf.2 p (mem_adel hp)⟩
      · rw [if_neg he]
        refine ⟨akeys_aset_nodup hwf.1, fun p hp => ?_⟩
        rcases mem_aset_nodup hwf.1 hp with rfl | ⟨hp, _⟩
        · exact akeys_adel_nodup (hwf.members_nodup hm)
        · exact hwf.2 p hp
    · rw [if_neg hu]
      exact hwf

/-- `disconnect` never leaves an empty room container behind, in any room. -/
theorem disconnect_nonempty {room_id user_id : Nat} {st : Registry}
    (h : roomsNonempty st = true) :
    roomsNonempty (disconnect room_id user_id st) = true := by
  cases hm : alookup room_id st with
  | none => rw [disconnect_eq_none hm]; exact h
  | some members =>
    rw [disconnect_eq_some hm]
    by_cases hu : ahas user_id members
    · rw [if_pos hu]
      by_cases he : (adel user_id members).isEmpty
      · rw [if_pos he]
        rw [roomsNonempty, List.all_eq_true] at h ⊢
        exact fun p hp => h p (mem_adel hp)
      · rw [if_neg he]
        rw [roomsNonempty, List.all_eq_true] at h ⊢
        intro p hp
        rcases mem_aset hp with rfl | hp'
        · simpa using he
        · exact h p hp'
    · rw [if_neg hu]
      exact h

theorem alookup_append {κ α : Type} [DecidableEq κ] {k : κ}
    {l l' : List (κ × α)} :
    alookup k (l ++ l') =
      (match alookup k l with
       | some v => some v
       | none => alookup k l') := by
  induction l with
  | nil => simp [alookup]
  | cons p rest ih =>
    by_cases hp : p.1 = k <;> simp [alookup, hp, ih]

theorem akeys_adel_eq_erase {κ α : Type} [DecidableEq κ] {k : κ}
    {l : List (κ × α)} : akeys (adel k l) = (akeys l).erase k := by
  induction l with
  | nil => simp [adel, akeys]
  | cons p rest ih =>
    simp only [akeys] at ih ⊢
    by_cases hp : p.1 = k
    · rw [adel, if_pos hp, List.map_cons, List.erase_cons,
        if_pos (by simpa using hp)]
    · rw [adel, if_neg hp, List.map_cons, List.map_cons, List.erase_cons,
        if_neg (by simpa using hp), ih]

/-- Unfolding equation for `broadcast_to_room` with the room present. -/
theorem broadcast_eq_some {message : Event} {room_id : Nat}
    {exclude_user_id : Option Nat} {fails : Nat → Bool} {st : Registry}
    {members : List (Nat × Nat)} (hm : alookup room_id st = some members) :
    broadcast_to_room message room_id exclude_user_id fails st =
      ((((members.filter (fun p => exclude_user_id ≠ some p.1)).filter
          (fun p => fails p.1)).map Prod.fst).foldl
            (fun s u => disconnect room_id u s) st,
       ((members.filter (fun p => exclude_user_id ≠ some p.1)).filter
          (fun p => !fails p.1)).map (fun p => (p.1, message))) := by
  unfold broadcast_to_room
  rw [hm]

/-- Unfolding equation for `broadcast_to_room` with the room absent. -/
theorem broadcast_eq_none {message : Event} {room_id : Nat}
    {exclude_user_id : Option Nat} {fails : Nat → Bool} {st : Registry}
    (hm : alookup room_id st = none) :
    broadcast_to_room message room_id exclude_user_id fails st = (st, []) := by
  unfold broadcast_to_room
  rw [hm]

theorem fold_disconnect_wf {room_id : Nat} {us : List Nat} {st : Registry}
    (hwf : RegWF st) :
    RegWF (us.foldl (fun s u => disconnect room_id u s) st) := by
  induction us generalizing st with
  | nil => exact hwf
  | cons u rest ih => exact ih (disconnect_wf hwf)

theorem fold_disconnect_nonempty {room_id : Nat} {us : List Nat} {st : Registry}
    (h : roomsNonempty st = true) :
    roomsNonempty (us.foldl (fun s u => disconnect room_id u s) st) = true := by
  induction us generalizing st with
  | nil => exact h
  | cons u rest ih => exact ih (disconnect_nonempty h)


/-- Disconnecting another identity in the same room leaves a user's
registration unchanged. -/
theorem lookupMember_disconnect_ne {room_id u u' : Nat} {st : Registry}
    (hwf : RegWF st) (hne : u ≠ u') :
    lookupMember room_id u (disconnect room_id u' st) =
      lookupMember room_id u st := by
  cases hm : alookup room_id st with
  | none => rw [disconnect_eq_none hm]
  | some members =>
    have hmnd := hwf.members_nodup hm
    rw [disconnect_eq_some hm]
    by_cases hu : ahas u' members
    · rw [if_pos hu]
      by_cases he : (adel u' members).isEmpty
      · rw [if_pos he]
        have hnil : adel u' members = [] := List.isEmpty_iff.1 he
        have h1 : alookup u members = none := by
          rw [← alookup_adel_ne hmnd hne, hnil]
          rfl
        have h2 : alookup room_id (adel room_id st) = none :=
          alookup_adel_self hwf.1
        simp only [lookupMember, h2, hm, h1]
      · rw [if_neg he]
        simp only [lookupMember, alookup_aset_self, hm]
        exact alookup_adel_ne hmnd hne
    · rw [if_neg hu]

/-- Disconnecting in another room leaves a user's registration unchanged. -/
theorem lookupMember_disconnect_other {room_id r u u' : Nat} {st : Registry}
    (hwf : RegWF st) (hne : r ≠ room_id) :
    lookupMember r u (disconnect room_id u' st) = lookupMember r u st := by
  cases hm : alookup room_id st with
  | none => rw [disconnect_eq_none hm]
  | some members =>
    rw [disconnect_eq_some hm]
    by_cases hu : ahas u' members
    · rw [if_pos hu]
      by_cases he : (adel u' members).isEmpty
      · rw [if_pos he]
        simp only [lookupMember, alookup_adel_ne hwf.1 hne]
      · rw [if_neg he]
        simp only [lookupMember, alookup_aset_ne hne]
    · rw [if_neg hu]

/-- Folding `disconnect` over identities other than `u` leaves `u`'s
registration unchanged. -/
theorem lookupMember_fold_disconnect {room_id u : Nat} {us : List Nat}
    {st : Registry} (hwf : RegWF st) (h : u ∉ us) :
    lookupMember room_id u (us.foldl (fun s u' => disconnect room_id u' s) st) =
      lookupMember room_id u st := by
  induction us generalizing st with
  | nil => rfl
  | cons u' rest ih =>
    simp only [List.mem_cons] at h
    push_neg at h
    rw [List.foldl_cons, ih (disconnect_wf hwf) h.2,
      lookupMember_disconnect_ne hwf h.1]

/-- Characterization of the registered state after `connect_register`. -/
theorem connect_register_eq {websocket room_id user_id : Nat} {st : Registry} :
    connect_register websocket room_id user_id st =
      (match alookup room_id st with
       | some members =>
         match alookup user_id members with
         | some old_websocket =>
           (aset room_id (aset user_id websocket (adel user_id members))
              (aset room_id (adel user_id members) st),
            [(old_websocket, "Reconnecting")])
         | none => (aset room_id (aset user_id websocket members) st, [])
       | none =>
         (aset room_id (aset user_id websocket [])
            (st ++ [(room_id, [])]), [])) := by
  cases hm : alookup room_id st with
  | none =>
    have hhas : ahas room_id st = false := by
      rw [ahas, hm]; rfl
    have happ : alookup room_id (st ++ [(room_id, [])]) =
        some ([] : List (Nat × Nat)) := by
      rw [alookup_append, hm]
      simp [alookup]
    simp [connect_register, hm, hhas, happ]
  | some members =>
    cases hu : alookup user_id members with
    | none =>
      have hhas : ahas room_id st = true := by rw [ahas, hm]; rfl
      simp [connect_register, hm, hu, hhas]
    | some old =>
      have hhas : ahas room_id (aset room_id (adel user_id members) st) = true := by
        rw [ahas, alookup_aset_self]; rfl
      simp [connect_register, hm, hu, hhas, alookup_aset_self]

theorem connect_register_eq_new_room {ws room_id user_id : Nat} {st : Registry}
    (hm : alookup room_id st = none) :
    connect_register ws room_id user_id st =
      (aset room_id (aset user_id ws []) (st ++ [(room_id, [])]), []) := by
  rw [connect_register_eq, hm]

theorem connect_register_eq_fresh {ws room_id user_id : Nat} {st : Registry}
    {members : List (Nat × Nat)} (hm : alookup room_id st = some members)
    (hu : alookup user_id members = none) :
    connect_register ws room_id user_id st =
      (aset room_id (aset user_id ws members) st, []) := by
  rw [connect_register_eq, hm]
  dsimp only
  rw [hu]

theorem connect_register_eq_stale {ws room_id user_id : Nat} {st : Registry}
    {members : List (Nat × Nat)} {old : Nat}
    (hm : alookup room_id st = some members)
    (hu : alookup user_id members = some old) :
    connect_register ws room_id user_id st =
      (aset room_id (aset user_id ws (adel user_id members))
        (aset room_id (adel user_id members) st),
       [(old, "Reconnecting")]) := by
  rw [connect_register_eq, hm]
  dsimp only
  rw [hu]

theorem aset_wf {room_id : Nat} {v : List (Nat × Nat)} {st : Registry}
    (hwf : RegWF st) (hv : (akeys v).Nodup) : RegWF (aset room_id v st) := by
  refine ⟨akeys_aset_nodup hwf.1, fun q hq => ?_⟩
  rcases mem_aset_nodup hwf.1 hq with rfl | ⟨hq, _⟩
  · exact hv
  · exact hwf.2 q hq

theorem append_room_wf {room_id : Nat} {st : Registry} (hwf : RegWF st)
    (h : alookup room_id st = none) : RegWF (st ++ [(room_id, [])]) := by
  constructor
  · have hmem : room_id ∉ akeys st := alookup_eq_none_iff.1 h
    simp only [akeys, List.map_append, List.map_cons, List.map_nil]
    rw [List.nodup_append]
    refine ⟨hwf.1, List.nodup_singleton _, ?_⟩
    intro a ha hb
    simp only [List.mem_singleton] at hb
    exact hmem (hb ▸ ha)
  · intro q hq
    rcases List.mem_append.1 hq with h1 | h1
    · exact hwf.2 q h1
    · simp only [List.mem_singleton] at h1
      subst h1
      simp [akeys]

theorem connect_register_wf {ws room_id user_id : Nat} {st : Registry}
    (hwf : RegWF st) : RegWF (connect_register ws room_id user_id st).1 := by
  cases hm : alookup room_id st with
  | none =>
    rw [connect_register_eq_new_room hm]
    exact aset_wf (append_room_wf hwf hm) (akeys_aset_nodup (by simp [akeys]))
  | some members =>
    cases hu : alookup user_id members with
    | none =>
      rw [connect_register_eq_fresh hm hu]
      exact aset_wf hwf (akeys_aset_nodup (hwf.members_nodup hm))
    | some old =>
      rw [connect_register_eq_stale hm hu]
      exact aset_wf (aset_wf hwf (akeys_adel_nodup (hwf.members_nodup hm)))
        (akeys_aset_nodup (akeys_adel_nodup (hwf.members_nodup hm)))

theorem connect_register_lookup {ws room_id user_id : Nat} {st : Registry} :
    lookupMember room_id user_id (connect_register ws room_id user_id st).1 =
      some ws := by
  cases hm : alookup room_id st with
  | none =>
    rw [connect_register_eq_new_room hm]
    simp [lookupMember, alookup_aset_self]
  | some members =>
    cases hu : alookup user_id members with
    | none =>
      rw [connect_register_eq_fresh hm hu]
      simp [lookupMember, alookup_aset_self]
    | some old =>
      rw [connect_register_eq_stale hm hu]
      simp [lookupMember, alookup_aset_self]

theorem connect_register_closed {ws room_id user_id : Nat} {st : Registry} :
    (connect_register ws room_id user_id st).2 =
      (match lookupMember room_id user_id st with
       | some old => [(old, "Reconnecting")]
       | none => []) := by
  cases hm : alookup room_id st with
  | none =>
    rw [connect_register_eq_new_room hm]
    simp [lookupMember, hm]
  | some members =>
    cases hu : alookup user_id members with
    | none =>
      rw [connect_register_eq_fresh hm hu]
      simp [lookupMember, hm, hu]
    | some old =>
      rw [connect_register_eq_stale hm hu]
      simp [lookupMember, hm, hu]

theorem roomsNonempty_aset {room_id : Nat} {v : List (Nat × Nat)} {st : Registry}
    (hnd : (akeys st).Nodup)
    (h : ∀ q ∈ st, q.1 ≠ room_id → ¬q.2.isEmpty)
    (hv : ¬v.isEmpty) :
    roomsNonempty (aset room_id v st) = true := by
  rw [roomsNonempty, List.all_eq_true]
  intro q hq
  rcases mem_aset_nodup hnd hq with rfl | ⟨hq', hne⟩
  · simpa using hv
  · simpa using h q hq' hne

theorem connect_register_nonempty {ws room_id user_id : Nat} {st : Registry}
    (hwf : RegWF st) (h : roomsNonempty st = true) :
    roomsNonempty (connect_register ws room_id user_id st).1 = true := by
  rw [roomsNonempty, List.all_eq_true] at h
  cases hm : alookup room_id st with
  | none =>
    rw [connect_register_eq_new_room hm]
    refine roomsNonempty_aset (append_room_wf hwf hm).1 ?_
      (by simpa using aset_ne_nil)
    intro q hq hne
    rcases List.mem_append.1 hq with h1 | h1
    · simpa using h q h1
    · simp only [List.mem_singleton] at h1
      exact absurd (congrArg Prod.fst h1) hne
  | some members =>
    cases hu : alookup user_id members with
    | none =>
      rw [connect_register_eq_fresh hm hu]
      refine roomsNonempty_aset hwf.1 ?_ (by simpa using aset_ne_nil)
      intro q hq _
      simpa using h q hq
    | some old =>
      rw [connect_register_eq_stale hm hu]
      refine roomsNonempty_aset (aset_wf hwf
        (akeys_adel_nodup (hwf.members_nodup hm))).1 ?_
        (by simpa using aset_ne_nil)
      intro q hq hne
      rcases mem_aset_nodup hwf.1 hq with rfl | ⟨hq', _⟩
      · exact absurd rfl hne
      · simpa using h q hq'

theorem broadcast_user_event_eq {room_id user_id : Nat} {event_type : String}
    {now : Int} {fails : Nat → Bool} {st : Registry} :
    broadcast_user_event room_id user_id event_type now fails st =
      broadcast_to_room (Event.presence event_type user_id now) room_id
        (some user_id) fails st := rfl

theorem broadcast_wf {message : Event} {room_id : Nat}
    {exclude_user_id : Option Nat} {fails : Nat → Bool} {st : Registry}
    (hwf : RegWF st) :
    RegWF (broadcast_to_room message room_id exclude_user_id fails st).1 := by
  cases hm : alookup room_id st with
  | none => rw [broadcast_eq_none hm]; exact hwf
  | some members => rw [broadcast_eq_some hm]; exact fold_disconnect_wf hwf

theorem broadcast_nonempty {message : Event} {room_id : Nat}
    {exclude_user_id : Option Nat} {fails : Nat → Bool} {st : Registry}
    (h : roomsNonempty st = true) :
    roomsNonempty (broadcast_to_room message room_id exclude_user_id fails st).1
      = true := by
  cases hm : alookup room_id st with
  | none => rw [broadcast_eq_none hm]; exact h
  | some members => rw [broadcast_eq_some hm]; exact fold_disconnect_nonempty h

/-- A broadcast that excludes a user never deregisters that user. -/
theorem broadcast_exclude_lookup {message : Event} {room_id user_id : Nat}
    {fails : Nat → Bool} {st : Registry} (hwf : RegWF st) :
    lookupMember room_id user_id
      (broadcast_to_room message room_id (some user_id) fails st).1 =
      lookupMember room_id user_id st := by
  cases hm : alookup room_id st with
  | none => rw [broadcast_eq_none hm]
  | some members =>
    rw [broadcast_eq_some hm]
    apply lookupMember_fold_disconnect hwf
    intro hmem
    simp only [List.mem_map] at hmem
    obtain ⟨q, hq, hq1⟩ := hmem
    have hfil := (List.mem_filter.1 (List.mem_filter.1 hq).1).2
    rw [hq1] at hfil
    simp at hfil

theorem connect_st_eq {ws room_id user_id : Nat} {now : Int}
    {fails : Nat → Bool} {st : Registry} :
    (connect ws room_id user_id now fails st).st =
      (broadcast_user_event room_id user_id "user_joined" now fails
        (connect_register ws room_id user_id st).1).1 := rfl

theorem connect_closed_eq {ws room_id user_id : Nat} {now : Int}
    {fails : Nat → Bool} {st : Registry} :
    (connect ws room_id user_id now fails st).closed =
      (connect_register ws room_id user_id st).2 := rfl

theorem connect_st_wf {ws room_id user_id : Nat} {now : Int}
    {fails : Nat → Bool} {st : Registry} (hwf : RegWF st) :
    RegWF (connect ws room_id user_id now fails st).st := by
  rw [connect_st_eq, broadcast_user_event_eq]
  exact broadcast_wf (connect_register_wf hwf)

theorem connect_lookup {ws room_id user_id : Nat} {now : Int}
    {fails : Nat → Bool} {st : Registry} (hwf : RegWF st) :
    lookupMember room_id user_id (connect ws room_id user_id now fails st).st =
      some ws := by
  rw [connect_st_eq, broadcast_user_event_eq,
    broadcast_exclude_lookup (connect_register_wf hwf)]
  exact connect_register_lookup

theorem pairEntries_eq_one {room_id user_id : Nat} {st : Registry} {w : Nat}
    (hwf : RegWF st) (h : lookupMember room_id user_id st = some w) :
    pairEntries room_id user_id st = 1 := by
  cases hm : alookup room_id st with
  | none => simp [lookupMember, hm] at h
  | some members =>
    simp only [lookupMember, hm] at h
    unfold pairEntries
    rw [filter_keys_singleton hwf.1 hm]
    simp only [List.map_cons, List.map_nil, List.sum_cons, List.sum_nil]
    rw [filter_keys_singleton (hwf.members_nodup hm) h]
    simp

theorem get_room_users_nodup {room_id : Nat} {st : Registry} (hwf : RegWF st) :
    (get_room_users room_id st).Nodup := by
  cases hm : alookup room_id st with
  | none => simp [get_room_users, hm]
  | some members =>
    simp only [get_room_users, hm]
    exact hwf.members_nodup hm

theorem get_room_users_disconnect {room_id user_id : Nat} {st : Registry}
    (hwf : RegWF st) :
    get_room_users room_id (disconnect room_id user_id st) =
      (get_room_users room_id st).erase user_id := by
  cases hm : alookup room_id st with
  | none =>
    rw [disconnect_eq_none hm]
    simp [get_room_users, hm]
  | some members =>
    have hmnd := hwf.members_nodup hm
    rw [disconnect_eq_some hm]
    by_cases hu : ahas user_id members
    · rw [if_pos hu]
      by_cases he : (adel user_id members).isEmpty
      · rw [if_pos he]
        have hnil : adel user_id members = [] := List.isEmpty_iff.1 he
        have h2 : alookup room_id (adel room_id st) = none :=
          alookup_adel_self hwf.1
        simp only [get_room_users, h2, hm]
        rw [← akeys_adel_eq_erase, hnil]
        rfl
      · rw [if_neg he]
        simp only [get_room_users, alookup_aset_self, hm]
        exact akeys_adel_eq_erase
    · rw [if_neg hu]
      simp only [get_room_users, hm]
      have hnm : user_id ∉ akeys members := fun hmem => hu (ahas_iff_mem.2 hmem)
      exact (List.erase_of_not_mem hnm).symm

theorem mem_fold_erase {x : Nat} {us l : List Nat} (hnd : l.Nodup) :
    x ∈ us.foldl (fun acc u => acc.erase u) l ↔ x ∈ l ∧ x ∉ us := by
  induction us generalizing l with
  | nil => simp
  | cons u rest ih =>
    rw [List.foldl_cons, ih (hnd.erase u), hnd.mem_erase_iff]
    simp only [List.mem_cons]
    tauto

theorem get_room_users_fold_disconnect {room_id : Nat} {us : List Nat}
    {st : Registry} (hwf : RegWF st) :
    get_room_users room_id (us.foldl (fun s u => disconnect room_id u s) st) =
      us.foldl (fun acc u => acc.erase u) (get_room_users room_id st) := by
  induction us generalizing st with
  | nil => rfl
  | cons u rest ih =>
    rw [List.foldl_cons, List.foldl_cons, ih (disconnect_wf hwf),
      get_room_users_disconnect hwf]

/-- C2: a broadcast to a room delivers the event to exactly the non-excluded
members whose send does not fail (in particular, one failing member does not
stop delivery to the other K−1), never raises to the caller (the function is
total and returns the new state), and every non-excluded member whose send
failed has been deregistered from the room when the fan-out pass is over,
while every member whose send succeeded is still registered. -/
theorem broadcast_to_room_partial_failure (message : Event) (room_id : Nat)
    (exclude_user_id : Option Nat) (fails : Nat → Bool) (st : Registry)
    (hwf : RegWF st) :
    ((broadcast_to_room message room_id exclude_user_id fails st).2.map
        Prod.fst =
      ((get_room_users room_id st).filter
        (fun u => exclude_user_id ≠ some u)).filter (fun u => !fails u))
    ∧ (∀ q ∈ (broadcast_to_room message room_id exclude_user_id fails st).2,
        q.2 = message)
    ∧ (∀ u ∈ get_room_users room_id st, exclude_user_id ≠ some u →
        fails u = true →
        u ∉ get_room_users room_id
          (broadcast_to_room message room_id exclude_user_id fails st).1)
    ∧ (∀ u ∈ get_room_users room_id st, fails u = false →
        u ∈ get_room_users room_id
          (broadcast_to_room message room_id exclude_user_id fails st).1) := by
  cases hm : alookup room_id st with
  | none =>
    have hempty : get_room_users room_id st = [] := by simp [get_room_users, hm]
    rw [broadcast_eq_none hm]
    simp [hempty]
  | some members =>
    have hgr : get_room_users room_id st = akeys members := by
      simp [get_room_users, hm]
    rw [broadcast_eq_some hm]
    have hdead : ∀ u,
        u ∈ ((members.filter (fun p => exclude_user_id ≠ some p.1)).filter
          (fun p => fails p.1)).map Prod.fst ↔
        u ∈ akeys members ∧ exclude_user_id ≠ some u ∧ fails u = true := by
      intro u
      constructor
      · intro hu
        obtain ⟨q, hq, rfl⟩ := List.mem_map.1 hu
        obtain ⟨hq1, hq2⟩ := List.mem_filter.1 hq
        obtain ⟨hq3, hq4⟩ := List.mem_filter.1 hq1
        refine ⟨List.mem_map_of_mem Prod.fst hq3, ?_, hq2⟩
        simpa using hq4
      · intro ⟨hu1, hu2, hu3⟩
        obtain ⟨q, hq, hq1⟩ := List.mem_map.1 hu1
        refine List.mem_map.2 ⟨q, List.mem_filter.2 ⟨List.mem_filter.2
          ⟨hq, ?_⟩, by rw [hq1]; exact hu3⟩, hq1⟩
        rw [hq1]
        simpa using hu2
    refine ⟨?_, ?_, ?_, ?_⟩
    · rw [hgr]
      have h1 := map_fst_filter_key (fun u => !fails u)
        (members.filter (fun p => exclude_user_id ≠ some p.1))
      have h2 := map_fst_filter_key (fun u => decide (exclude_user_id ≠ some u))
        members
      calc (((members.filter (fun p => exclude_user_id ≠ some p.1)).filter
            (fun p => !fails p.1)).map (fun p => (p.1, message))).map Prod.fst
          = ((members.filter (fun p => exclude_user_id ≠ some p.1)).filter
            (fun p => !fails p.1)).map Prod.fst := by
            simp [List.map_map, Function.comp]
        _ = ((members.filter (fun p => exclude_user_id ≠ some p.1)).map
            Prod.fst).filter (fun u => !fails u) := h1
        _ = ((members.map Prod.fst).filter
            (fun u => decide (exclude_user_id ≠ some u))).filter
            (fun u => !fails u) := by rw [h2]
        _ = ((akeys members).filter (fun u => exclude_user_id ≠ some u)).filter
            (fun u => !fails u) := rfl
    · intro q hq
      obtain ⟨p, _, hp⟩ := List.mem_map.1 hq
      rw [← hp]
    · intro u hu hex hf
      rw [get_room_users_fold_disconnect hwf,
        mem_fold_erase (get_room_users_nodup hwf)]
      rw [hgr] at hu
      intro ⟨_, hnot⟩
      exact hnot ((hdead u).2 ⟨hu, hex, hf⟩)
    · intro u hu hf
      rw [get_room_users_fold_disconnect hwf,
        mem_fold_erase (get_room_users_nodup hwf)]
      refine ⟨hu, fun hmem => ?_⟩
      obtain ⟨_, _, hf'⟩ := (hdead u).1 hmem
      rw [hf] at hf'
      exact Bool.false_ne_true hf'

/-- C2 witness: in a room with members 5 and 7 where 7's send fails, 5 is
still delivered to and 7 is gone from the member set afterwards. -/
theorem broadcast_to_room_partial_failure_witness :
    ((broadcast_to_room (Event.error "x") 1 none (fun u => u == 7)
        [(1, [(5, 50), (7, 70)])]).2.map Prod.fst = [5])
    ∧ 7 ∉ get_room_users 1
        (broadcast_to_room (Event.error "x") 1 none (fun u => u == 7)
          [(1, [(5, 50), (7, 70)])]).1 := by
  have h := broadcast_to_room_partial_failure (Event.error "x") 1 none
    (fun u => u == 7) [(1, [(5, 50), (7, 70)])]
    ⟨by decide, by decide⟩
  constructor
  · rw [h.1]
    decide
  · exact h.2.2.1 7 (by decide) (by decide) (by decide)

/-- C1: after `connect` for (room, identity), the registry holds exactly one
entry for the pair, and it holds the new handle; if the pair was already
registered, the prior handle was closed with the "Reconnecting" signal and
removed, and otherwise nothing was closed. -/
theorem connect_single_live_connection (websocket room_id user_id : Nat)
    (now : Int) (fails : Nat → Bool) (st : Registry) (hwf : RegWF st) :
    lookupMember room_id user_id
      (connect websocket room_id user_id now fails st).st = some websocket
    ∧ pairEntries room_id user_id
        (connect websocket room_id user_id now fails st).st = 1
    ∧ (∀ old, lookupMember room_id user_id st = some old →
        (connect websocket room_id user_id now fails st).closed =
          [(old, "Reconnecting")])
    ∧ (lookupMember room_id user_id st = none →
        (connect websocket room_id user_id now fails st).closed = []) := by
  refine ⟨connect_lookup hwf,
    pairEntries_eq_one (connect_st_wf hwf) (connect_lookup hwf), ?_, ?_⟩
  · intro old hold
    rw [connect_closed_eq, connect_register_closed, hold]
  · intro hnone
    rw [connect_closed_eq, connect_register_closed, hnone]

/-- C1 witness: reconnecting user 5 to room 1 closes the old handle 50 and
leaves exactly one registered entry, holding the new handle 51. -/
theorem connect_single_live_connection_witness :
    lookupMember 1 5
      (connect 51 1 5 0 (fun _ => false) [(1, [(5, 50)])]).st = some 51
    ∧ pairEntries 1 5
        (connect 51 1 5 0 (fun _ => false) [(1, [(5, 50)])]).st = 1
    ∧ (connect 51 1 5 0 (fun _ => false) [(1, [(5, 50)])]).closed =
        [(50, "Reconnecting")] := by
  have h := connect_single_live_connection 51 1 5 0 (fun _ => false)
    [(1, [(5, 50)])] ⟨by decide, by decide⟩
  exact ⟨h.1, h.2.1, h.2.2.1 50 (by decide)⟩

theorem applyRegOp_wf {st : Registry} {op : RegOp} (hwf : RegWF st) :
    RegWF (applyRegOp st op) := by
  cases op with
  | conn ws r u now fails => exact connect_st_wf hwf
  | disc r u => exact disconnect_wf hwf
  | bcast m r e fails => exact broadcast_wf hwf

theorem applyRegOp_nonempty {st : Registry} {op : RegOp} (hwf : RegWF st)
    (h : roomsNonempty st = true) :
    roomsNonempty (applyRegOp st op) = true := by
  cases op with
  | conn ws r u now fails =>
    show roomsNonempty (connect ws r u now fails st).st = true
    rw [connect_st_eq, broadcast_user_event_eq]
    exact broadcast_nonempty (connect_register_nonempty hwf h)
  | disc r u => exact disconnect_nonempty h
  | bcast m r e fails => exact broadcast_nonempty h

theorem regops_preserve_nonempty (ops : List RegOp) (st : Registry)
    (hwf : RegWF st) (h : roomsNonempty st = true) :
    RegWF (ops.foldl applyRegOp st)
    ∧ roomsNonempty (ops.foldl applyRegOp st) = true := by
  induction ops generalizing st with
  | nil => exact ⟨hwf, h⟩
  | cons op rest ih =>
    exact ih _ (applyRegOp_wf hwf) (applyRegOp_nonempty hwf h)

/-- C9: `disconnect` removes the (room, identity) entry when present and
leaves the registry unchanged when it is absent; and after any sequence of
connect / disconnect / broadcast operations from a well-formed all-rooms-
non-empty state (in particular from the empty initial registry), every room
key present in the registry maps to a non-empty member container. -/
theorem registry_no_empty_rooms :
    (∀ (room_id user_id : Nat) (st : Registry), RegWF st →
      ((lookupMember room_id user_id st ≠ none →
        lookupMember room_id user_id (disconnect room_id user_id st) = none)
      ∧ (lookupMember room_id user_id st = none →
        disconnect room_id user_id st = st)))
    ∧ (∀ (ops : List RegOp) (st : Registry), RegWF st →
        roomsNonempty st = true →
        roomsNonempty (ops.foldl applyRegOp st) = true)
    ∧ (∀ ops : List RegOp, roomsNonempty (ops.foldl applyRegOp []) = true) := by
  refine ⟨?_, ?_, ?_⟩
  · intro room_id user_id st hwf
    constructor
    · intro hne
      cases hm : alookup room_id st with
      | none =>
        exfalso
        apply hne
        simp [lookupMember, hm]
      | some members =>
        have hmnd := hwf.members_nodup hm
        have hu : ahas user_id members = true := by
          simp only [lookupMember, hm] at hne
          rw [ahas]
          cases hx : alookup user_id members with
          | none => rw [hx] at hne; exact absurd rfl hne
          | some w => rfl
        rw [disconnect_eq_some hm, if_pos hu]
        by_cases he : (adel user_id members).isEmpty
        · rw [if_pos he]
          simp [lookupMember, alookup_adel_self hwf.1]
        · rw [if_neg he]
          simp only [lookupMember, alookup_aset_self]
          exact alookup_adel_self hmnd
    · intro hnone
      cases hm : alookup room_id st with
      | none => exact disconnect_eq_none hm
      | some members =>
        have hu : ahas user_id members = false := by
          simp only [lookupMember, hm] at hnone
          rw [ahas, hnone]
          rfl
        rw [disconnect_eq_some hm, if_neg (by simp [hu])]
  · intro ops st hwf h
    exact (regops_preserve_nonempty ops st hwf h).2
  · intro ops
    exact (regops_preserve_nonempty ops [] ⟨List.nodup_nil, by simp⟩ rfl).2

/-- C9 witness: deregistering an absent pair is a no-op, deregistering a
present pair removes it, and a concrete op sequence that empties and refills
rooms keeps every room container non-empty. -/
theorem registry_no_empty_rooms_witness :
    disconnect 1 5 [(2, [(3, 30)])] = [(2, [(3, 30)])]
    ∧ lookupMember 1 5 (disconnect 1 5 [(1, [(5, 50)])]) = none
    ∧ roomsNonempty
        ([RegOp.conn 51 1 5 0 (fun _ => false), RegOp.disc 1 5,
          RegOp.conn 60 2 6 0 (fun _ => false)].foldl applyRegOp []) = true := by
  have h := registry_no_empty_rooms
  refine ⟨(h.1 1 5 [(2, [(3, 30)])] ⟨by decide, by decide⟩).2 (by decide),
    (h.1 1 5 [(1, [(5, 50)])] ⟨by decide, by decide⟩).1 (by decide), ?_⟩
  exact h.2.2 [RegOp.conn 51 1 5 0 (fun _ => false), RegOp.disc 1 5,
    RegOp.conn 60 2 6 0 (fun _ => false)]

/-! ## C8: typing entries, stopped-typing signals and the disconnect path -/

/-- The typing-tracker entry for a (room, identity) pair, if any. -/
def typingEntry (room_id user_id : Nat) (t : TypingMap) : Option Int :=
  match alookup room_id t with
  | none => none
  | some m => alookup user_id m

/-- The typing map after a stopped-typing signal (unfolding of
`handle_typing` with `is_typing = False`). -/
theorem handle_typing_stop_map {room_id user_id : Nat} {username : String}
    {now : Int} {t : TypingMap} {st : Registry} {fails : Nat → Bool} :
    (handle_typing room_id user_id false username now t st fails).1 =
      (match alookup room_id t with
       | some m =>
         if ahas user_id m then aset room_id (adel user_id m) t else t
       | none => t) := rfl

/-- The disconnect path returns the typing map it was given. -/
theorem disconnect_cleanup_typing {room_id user_id : Nat} {now : Int}
    {fails : Nat → Bool} {st : Registry} {t : TypingMap} :
    (disconnect_cleanup room_id user_id now fails st t).2.1 = t := rfl

/-- C8 counterexample: user 5 signals "started typing" in room 1, then the
disconnect path runs for (1, 5).  The typing entry for the pair is still
present afterwards, so the claim that no typing entry remains after the
disconnect path is false on the code. -/
theorem typing_entry_survives_disconnect :
    typingEntry 1 5
      ((disconnect_cleanup 1 5 9 (fun _ => false) [(1, [(5, 50)])]
        (handle_typing 1 5 true "alice" 7 [] [(1, [(5, 50)])]
          (fun _ => false)).1).2.1) = some 7 := by
  rfl

/-- C8 (amended): a (room, identity) typing entry is removed by an explicit
stopped-typing signal, but the disconnect path does not touch the typing
map at all, so an entry present before disconnection is still present
afterwards. -/
theorem typing_removed_on_stop_only (room_id user_id : Nat) (username : String)
    (now now' : Int) (t : TypingMap) (st st' : Registry)
    (fails fails' : Nat → Bool)
    (hwf : (akeys t).Nodup ∧ ∀ p ∈ t, (akeys p.2).Nodup) :
    typingEntry room_id user_id
      (handle_typing room_id user_id false username now t st fails).1 = none
    ∧ (disconnect_cleanup room_id user_id now' fails' st' t).2.1 = t := by
  refine ⟨?_, rfl⟩
  rw [handle_typing_stop_map]
  cases hm : alookup room_id t with
  | none => simp [typingEntry, hm]
  | some m =>
    dsimp only
    have hmnd : (akeys m).Nodup := hwf.2 _ (alookup_mem hm)
    by_cases hu : ahas user_id m
    · rw [if_pos hu]
      simp only [typingEntry, alookup_aset_self]
      exact alookup_adel_self hmnd
    · rw [if_neg hu]
      simp only [typingEntry, hm]
      cases hx : alookup user_id m with
      | none => rfl
      | some w =>
        exfalso
        apply hu
        rw [ahas, hx]
        rfl

/-- C8 amended-claim witness: stopping typing removes the concrete entry. -/
theorem typing_removed_on_stop_only_witness :
    typingEntry 1 5
      (handle_typing 1 5 false "alice" 9 [(1, [(5, 7)])] [] (fun _ => false)).1
      = none :=
  (typing_removed_on_stop_only 1 5 "alice" 9 0 [(1, [(5, 7)])] [] []
    (fun _ => false) (fun _ => false) ⟨by decide, by decide⟩).1

/-! ## C4 / C5: the reaction toggle -/

theorem listRemove_sublist {x : Nat} {l : List Nat} :
    (listRemove x l).Sublist l := by
  induction l with
  | nil => simp [listRemove]
  | cons z rest ih =>
    by_cases h : z = x
    · rw [listRemove, if_pos h]
      exact List.sublist_cons_self z rest
    · rw [listRemove, if_neg h]
      exact ih.cons₂ z

theorem mem_listRemove_ne {x y : Nat} {l : List Nat} (h : y ≠ x) :
    y ∈ listRemove x l ↔ y ∈ l := by
  induction l with
  | nil => simp [listRemove]
  | cons z rest ih =>
    by_cases hz : z = x
    · subst hz
      rw [listRemove, if_pos rfl]
      simp only [List.mem_cons]
      constructor
      · exact Or.inr
      · rintro (rfl | hy)
        · exact absurd rfl h
        · exact hy
    · rw [listRemove, if_neg hz]
      simp [ih]

theorem not_mem_listRemove {x : Nat} {l : List Nat} (hnd : l.Nodup) :
    x ∉ listRemove x l := by
  induction l with
  | nil => simp [listRemove]
  | cons z rest ih =>
    rw [List.nodup_cons] at hnd
    by_cases hz : z = x
    · rw [listRemove, if_pos hz]
      exact hz ▸ hnd.1
    · rw [listRemove, if_neg hz]
      intro hmem
      rcases List.mem_cons.1 hmem with rfl | hmem
      · exact hz rfl
      · exact ih hnd.2 hmem

theorem listRemove_append_self {x : Nat} {l : List Nat} (h : x ∉ l) :
    listRemove x (l ++ [x]) = l := by
  induction l with
  | nil => simp [listRemove]
  | cons z rest ih =>
    simp only [List.mem_cons] at h
    push_neg at h
    have hz : ¬ z = x := fun hh => h.1 hh.symm
    rw [List.cons_append, listRemove, if_neg hz, ih h.2]

theorem listRemove_eq_nil {x : Nat} {l : List Nat}
    (h : listRemove x l = []) : l = [] ∨ l = [x] := by
  cases l with
  | nil => exact Or.inl rfl
  | cons z rest =>
    by_cases hz : z = x
    · rw [listRemove, if_pos hz] at h
      subst h
      exact Or.inr (by rw [hz])
    · rw [listRemove, if_neg hz] at h
      exact absurd h (List.cons_ne_nil z _)

theorem aset_aset {κ α : Type} [DecidableEq κ] {k : κ} {v v' : α}
    {l : List (κ × α)} : aset k v (aset k v' l) = aset k v l := by
  induction l with
  | nil => simp [aset]
  | cons p rest ih =>
    by_cases hp : p.1 = k
    · simp [aset, hp]
    · simp [aset, hp, ih]

theorem toggle_eq_absent {uid : Nat} {emoji : Emoji} {rs : Reactions}
    (h : ahas emoji rs = false) :
    toggle_reaction_core uid emoji rs = aset emoji [uid] (aset emoji [] rs) := by
  simp [toggle_reaction_core, h, alookup_aset_self]

theorem toggle_eq_add {uid : Nat} {emoji : Emoji} {rs : Reactions}
    {L : List Nat} (hL : alookup emoji rs = some L)
    (hc : L.contains uid = false) :
    toggle_reaction_core uid emoji rs = aset emoji (L ++ [uid]) rs := by
  have hhas : ahas emoji rs = true := by rw [ahas, hL]; rfl
  have hm : uid ∉ L := fun hmem => by
    have hcc : L.contains uid = true := List.elem_iff.2 hmem
    rw [hcc] at hc
    simp at hc
  simp [toggle_reaction_core, hhas, hL, hm]

theorem toggle_eq_remove_all {uid : Nat} {emoji : Emoji} {rs : Reactions}
    {L : List Nat} (hL : alookup emoji rs = some L)
    (hc : L.contains uid = true) (he : listRemove uid L = []) :
    toggle_reaction_core uid emoji rs = adel emoji rs := by
  have hhas : ahas emoji rs = true := by rw [ahas, hL]; rfl
  have hm : uid ∈ L := List.elem_iff.1 hc
  simp [toggle_reaction_core, hhas, hL, hm, he]

theorem toggle_eq_remove {uid : Nat} {emoji : Emoji} {rs : Reactions}
    {L : List Nat} (hL : alookup emoji rs = some L)
    (hc : L.contains uid = true) (he : ¬ listRemove uid L = []) :
    toggle_reaction_core uid emoji rs = aset emoji (listRemove uid L) rs := by
  have hhas : ahas emoji rs = true := by rw [ahas, hL]; rfl
  have hm : uid ∈ L := List.elem_iff.1 hc
  simp [toggle_reaction_core, hhas, hL, hm, he]

theorem reactions_aset_wf {emoji : Emoji} {v : List Nat} {rs : Reactions}
    (hwf : ReactionsWF rs) (hvnd : v.Nodup) (hvne : v ≠ []) :
    ReactionsWF (aset emoji v rs) := by
  refine ⟨akeys_aset_nodup hwf.1, fun q hq => ?_⟩
  rcases mem_aset_nodup hwf.1 hq with rfl | ⟨hq, _⟩
  · exact ⟨hvnd, hvne⟩
  · exact hwf.2 q hq

theorem reactions_adel_wf {emoji : Emoji} {rs : Reactions}
    (hwf : ReactionsWF rs) : ReactionsWF (adel emoji rs) :=
  ⟨akeys_adel_nodup hwf.1, fun q hq => hwf.2 q (mem_adel hq)⟩

theorem hasEmoji_iff_exists {rs : Reactions} (hwf : ReactionsWF rs)
    (e : Emoji) :
    hasEmoji rs e = true ↔ ∃ u, reacted rs e u = true := by
  unfold hasEmoji reacted ahas
  cases hL : alookup e rs with
  | none => simp
  | some L =>
    simp only [Option.isSome_some, Option.getD_some, true_iff]
    have hne : L ≠ [] := (hwf.2 _ (alookup_mem hL)).2
    obtain ⟨u, hu⟩ := List.exists_mem_of_ne_nil L hne
    exact ⟨u, List.elem_iff.2 hu⟩

/-- One toggle keeps the reaction map well-formed, flips the toggling
identity's membership under the toggled emoji, and changes nothing else. -/
theorem toggle_spec {uid : Nat} {emoji : Emoji} {rs : Reactions}
    (hwf : ReactionsWF rs) :
    ReactionsWF (toggle_reaction_core uid emoji rs)
    ∧ reacted (toggle_reaction_core uid emoji rs) emoji uid =
        !reacted rs emoji uid
    ∧ (∀ e u, ¬(e = emoji ∧ u = uid) →
        reacted (toggle_reaction_core uid emoji rs) e u = reacted rs e u) := by
  cases hL : alookup emoji rs with
  | none =>
    have hhas : ahas emoji rs = false := by rw [ahas, hL]; rfl
    rw [toggle_eq_absent hhas, aset_aset]
    refine ⟨reactions_aset_wf hwf (List.nodup_singleton uid)
      (List.cons_ne_nil uid []), ?_, ?_⟩
    · simp [reacted, alookup_aset_self, hL]
    · intro e u hne
      by_cases he : e = emoji
      · subst he
        have hu : u ≠ uid := fun hh => hne ⟨rfl, hh⟩
        simp [reacted, alookup_aset_self, hL, List.elem_iff, hu]
      · simp [reacted, alookup_aset_ne he]
  | some L =>
    have hLmem := alookup_mem hL
    have hLnd : L.Nodup := (hwf.2 _ hLmem).1
    cases hc : L.contains uid with
    | false =>
      have hcm : uid ∉ L := fun hmem => by
        have hcc : L.contains uid = true := List.elem_iff.2 hmem
        rw [hcc] at hc
        simp at hc
      rw [toggle_eq_add hL hc]
      refine ⟨reactions_aset_wf hwf
        (by simpa [List.nodup_append] using ⟨hLnd, hcm⟩)
        (by simp), ?_, ?_⟩
      · simp [reacted, alookup_aset_self, hL, List.elem_iff, hcm]
      · intro e u hne
        by_cases he : e = emoji
        · subst he
          have hu : u ≠ uid := fun hh => hne ⟨rfl, hh⟩
          simp only [reacted, alookup_aset_self, hL, Option.getD_some]
          rw [Bool.eq_iff_iff]
          simp only [List.elem_iff]
          simp [hu]
        · simp [reacted, alookup_aset_ne he]
    | true =>
      have hcm : uid ∈ L := List.elem_iff.1 hc
      by_cases he : listRemove uid L = []
      · rcases listRemove_eq_nil he with rfl | hL1
        · exact absurd hcm (List.not_mem_nil uid)
        · rw [toggle_eq_remove_all hL hc he]
          refine ⟨reactions_adel_wf hwf, ?_, ?_⟩
          · simp [reacted, alookup_adel_self hwf.1, hL, List.elem_iff, hcm]
          · intro e u hne
            by_cases heq : e = emoji
            · subst heq
              have hu : u ≠ uid := fun hh => hne ⟨rfl, hh⟩
              simp [reacted, alookup_adel_self hwf.1, hL, hL1, List.elem_iff, hu]
            · simp [reacted, alookup_adel_ne hwf.1 heq]
      · rw [toggle_eq_remove hL hc he]
        refine ⟨reactions_aset_wf hwf (hLnd.sublist listRemove_sublist) he,
          ?_, ?_⟩
        · simp only [reacted, alookup_aset_self, hL, Option.getD_some]
          rw [Bool.eq_iff_iff]
          simp only [List.elem_iff]
          simp [not_mem_listRemove hLnd, hcm]
        · intro e u hne
          by_cases heq : e = emoji
          · subst heq
            have hu : u ≠ uid := fun hh => hne ⟨rfl, hh⟩
            simp only [reacted, alookup_aset_self, hL, Option.getD_some]
            rw [Bool.eq_iff_iff]
            simp only [List.elem_iff]
            exact mem_listRemove_ne hu
          · simp [reacted, alookup_aset_ne heq]

/-- C4: on a well-formed reaction map with a non-empty emoji, the toggle
flips the identity's presence under that emoji (adding it when absent,
creating the key if needed; removing it when present), keeps the emoji key
present exactly when some identity still reacts with it (so a key whose
set empties is deleted), leaves every other (emoji, identity) pair
untouched, and applying the toggle twice in sequence returns the reaction
map to its state before the first application: the same identities react
under every emoji and the same emoji keys are present. -/
theorem reaction_toggle_involutive (rs : Reactions) (uid : Nat) (emoji : Emoji)
    (hwf : ReactionsWF rs) (_hemoji : emoji ≠ []) :
    (reacted (toggle_reaction_core uid emoji rs) emoji uid =
        !reacted rs emoji uid)
    ∧ (∀ e u, ¬(e = emoji ∧ u = uid) →
        reacted (toggle_reaction_core uid emoji rs) e u = reacted rs e u)
    ∧ (∀ e, hasEmoji (toggle_reaction_core uid emoji rs) e = true ↔
        ∃ u, reacted (toggle_reaction_core uid emoji rs) e u = true)
    ∧ (∀ e u, reacted (toggle_reaction_core uid emoji
        (toggle_reaction_core uid emoji rs)) e u = reacted rs e u)
    ∧ (∀ e, hasEmoji (toggle_reaction_core uid emoji
        (toggle_reaction_core uid emoji rs)) e = hasEmoji rs e) := by
  obtain ⟨hwf1, hflip1, hoth1⟩ := @toggle_spec uid emoji rs hwf
  obtain ⟨hwf2, hflip2, hoth2⟩ :=
    @toggle_spec uid emoji (toggle_reaction_core uid emoji rs) hwf1
  have hdouble : ∀ e u, reacted (toggle_reaction_core uid emoji
      (toggle_reaction_core uid emoji rs)) e u = reacted rs e u := by
    intro e u
    by_cases h : e = emoji ∧ u = uid
    · obtain ⟨rfl, rfl⟩ := h
      rw [hflip2, hflip1, Bool.not_not]
    · rw [hoth2 e u h, hoth1 e u h]
  refine ⟨hflip1, hoth1, fun e => hasEmoji_iff_exists hwf1 e, hdouble, ?_⟩
  intro e
  rw [Bool.eq_iff_iff, hasEmoji_iff_exists hwf2 e, hasEmoji_iff_exists hwf e]
  constructor
  · rintro ⟨u, hu⟩
    exact ⟨u, (hdouble e u) ▸ hu⟩
  · rintro ⟨u, hu⟩
    exact ⟨u, (hdouble e u).symm ▸ hu⟩

/-- C4 witness: toggling user 3 twice under emoji `x` on a concrete map
restores that user's reaction state. -/
theorem reaction_toggle_involutive_witness :
    reacted (toggle_reaction_core 3 [Char.ofNat 120]
      (toggle_reaction_core 3 [Char.ofNat 120]
        [([Char.ofNat 120], [3, 4])])) [Char.ofNat 120] 3 =
      reacted [([Char.ofNat 120], [3, 4])] [Char.ofNat 120] 3 := by
  have h := reaction_toggle_involutive [([Char.ofNat 120], [3, 4])] 3
    [Char.ofNat 120] ⟨by decide, by decide⟩ (by decide)
  exact h.2.2.2.1 [Char.ofNat 120] 3

/-- The commit of an updated reaction map for message `message_id`
(`db.commit()` after mutating `message.reactions`). -/
def set_reactions (store : List MsgRec) (message_id : Nat)
    (reactions : Reactions) : List MsgRec :=
  store.map (fun m =>
    if m.id = message_id then { m with reactions := some reactions } else m)

structure RestToggleResult where
  result : Except String Reactions
  broadcasts : List (Nat × Event)
  store : List MsgRec
  deriving Repr

/-- The request/response `toggle_reaction` endpoint (routes.py 401-465):
look the message up by id (404 when absent), replace a `None` reaction
column by the empty dict, strip and validate the emoji (400 when empty),
toggle, commit, broadcast one `reaction_update` to the message's room and
return the resulting map. -/
def toggle_reaction_route (store : List MsgRec) (uid message_id : Nat)
    (rawEmoji : List Char) : RestToggleResult :=
  match store.find? (fun m => m.id == message_id) with
  | none => ⟨Except.error "Message not found", [], store⟩
  | some message =>
    let reactions := message.reactions.getD []
    let emoji := pstrip rawEmoji
    if emoji.isEmpty then ⟨Except.error "Emoji cannot be empty", [], store⟩
    else
      let newReactions := toggle_reaction_core uid emoji reactions
      ⟨Except.ok newReactions,
       [(message.room_id, Event.reaction_update message.id newReactions)],
       set_reactions store message.id newReactions⟩

structure WsToggleResult where
  toSender : List Event
  broadcasts : List (Nat × Event)
  store : List MsgRec
  deriving Repr

/-- The push-stream `reaction` branch of the session loop
(routes.py 776-830): reject missing/falsy message id or empty stripped
emoji with a local error, look the message up by id in the current room
(local error when absent), toggle, commit, broadcast one
`reaction_update` to the room. -/
def ws_reaction_branch (store : List MsgRec) (room_id user_id : Nat)
    (message_id : Option Nat) (rawEmoji : List Char) : WsToggleResult :=
  let emoji := pstrip rawEmoji
  let midFalsy : Bool :=
    match message_id with
    | none => true
    | some m => m == 0
  if midFalsy || emoji.isEmpty then
    ⟨[Event.error "message_id and emoji required"], [], store⟩
  else
    let mid := message_id.getD 0
    match store.find? (fun m => m.id == mid && m.room_id == room_id) with
    | none => ⟨[Event.error "Message not found"], [], store⟩
    | some message =>
      let reactions := message.reactions.getD []
      let newReactions := toggle_reaction_core user_id emoji reactions
      ⟨[], [(room_id, Event.reaction_update message.id newReactions)],
       set_reactions store message.id newReactions⟩

theorem find_id_of_find_room {store : List MsgRec} {mid room_id : Nat}
    {message : MsgRec} (hids : (store.map MsgRec.id).Nodup)
    (h : store.find? (fun m => m.id == mid && m.room_id == room_id) =
      some message) :
    store.find? (fun m => m.id == mid) = some message := by
  induction store with
  | nil => simp at h
  | cons m rest ih =>
    simp only [List.map_cons, List.nodup_cons] at hids
    by_cases hm : (m.id == mid) = true
    · by_cases hr : (m.room_id == room_id) = true
      · rw [List.find?_cons_of_pos _ (by simp [hm, hr])] at h
        obtain rfl := Option.some.inj h
        exact List.find?_cons_of_pos rest (by simpa using hm)
      · rw [List.find?_cons_of_neg _ (by simp [hr])] at h
        exfalso
        have hmem := List.mem_of_find?_eq_some h
        have hpred := List.find?_some h
        simp only [Bool.and_eq_true, beq_iff_eq] at hpred
        apply hids.1
        rw [show m.id = mid from by simpa using hm, ← hpred.1]
        exact List.mem_map_of_mem MsgRec.id hmem
    · rw [List.find?_cons_of_neg _ (by simp [hm])] at h
      calc List.find? (fun m => m.id == mid) (m :: rest)
          = List.find? (fun m => m.id == mid) rest :=
            List.find?_cons_of_neg rest (by simpa using hm)
        _ = some message := ih hids.2 h

/-- C5: from the same starting store and the same (message, identity,
emoji), the request/response toggle endpoint and the push-stream reaction
branch compute the same resulting reaction map, commit the same store, and
each triggers exactly one `reaction_update` broadcast to the message's
room carrying the full resulting map. -/
theorem reaction_push_pull_equivalence (store : List MsgRec)
    (room_id user_id mid : Nat) (rawEmoji : List Char) (message : MsgRec)
    (hids : (store.map MsgRec.id).Nodup)
    (hfind : store.find? (fun m => m.id == mid && m.room_id == room_id) =
      some message)
    (hmid : mid ≠ 0)
    (hemoji : ¬(pstrip rawEmoji).isEmpty) :
    toggle_reaction_route store user_id mid rawEmoji =
      ⟨Except.ok (toggle_reaction_core user_id (pstrip rawEmoji)
          (message.reactions.getD [])),
       [(room_id, Event.reaction_update mid (toggle_reaction_core user_id
          (pstrip rawEmoji) (message.reactions.getD [])))],
       set_reactions store mid (toggle_reaction_core user_id
          (pstrip rawEmoji) (message.reactions.getD []))⟩
    ∧ ws_reaction_branch store room_id user_id (some mid) rawEmoji =
      ⟨[],
       [(room_id, Event.reaction_update mid (toggle_reaction_core user_id
          (pstrip rawEmoji) (message.reactions.getD [])))],
       set_reactions store mid (toggle_reaction_core user_id
          (pstrip rawEmoji) (message.reactions.getD []))⟩ := by
  have hpred := List.find?_some hfind
  simp only [Bool.and_eq_true, beq_iff_eq] at hpred
  obtain ⟨hid, hroom⟩ := hpred
  have hfid : store.find? (fun m => m.id == mid) = some message :=
    find_id_of_find_room hids hfind
  constructor
  · unfold toggle_reaction_route
    rw [hfid]
    dsimp only
    rw [if_neg hemoji, hid, hroom]
  · unfold ws_reaction_branch
    dsimp only
    have hmid' : (mid == 0) = false := by simp [hmid]
    rw [hmid', Bool.false_or, if_neg hemoji]
    simp only [Option.getD_some]
    rw [hfind]
    dsimp only
    rw [hid]

/-- C5 witness: on a concrete one-message store, the endpoint and the
push-stream branch emit the same single broadcast and commit the same
store. -/
theorem reaction_push_pull_equivalence_witness :
    (toggle_reaction_route [⟨1, 2, 3, [], "text", none, some [], 0⟩] 9 1
        [Char.ofNat 120]).broadcasts =
      (ws_reaction_branch [⟨1, 2, 3, [], "text", none, some [], 0⟩] 2 9
        (some 1) [Char.ofNat 120]).broadcasts
    ∧ (toggle_reaction_route [⟨1, 2, 3, [], "text", none, some [], 0⟩] 9 1
        [Char.ofNat 120]).store =
      (ws_reaction_branch [⟨1, 2, 3, [], "text", none, some [], 0⟩] 2 9
        (some 1) [Char.ofNat 120]).store := by
  have h := reaction_push_pull_equivalence
    [⟨1, 2, 3, [], "text", none, some [], 0⟩] 2 9 1 [Char.ofNat 120]
    ⟨1, 2, 3, [], "text", none, some [], 0⟩
    (by decide) (by decide) (by decide) (by decide)
  rw [h.1, h.2]
  exact ⟨rfl, rfl⟩

/-! ## C6 / C7: the message branch of the session loop -/

/-- `MAX_MESSAGE_LENGTH = 2000` (validation.py). -/
def MAX_MESSAGE_LENGTH : Nat := 2000

/-- `validate_message` (validation.py 104-129): non-empty, non-whitespace
after stripping, at most 2000 characters. -/
def validate_message (content : List Char) : Bool × Option String :=
  if content.isEmpty then (false, some "Message cannot be empty")
  else
    let content := pstrip content
    if content.isEmpty then (false, some "Message cannot be only whitespace")
    else if MAX_MESSAGE_LENGTH < content.length then
      (false, some "Message must be no more than 2000 characters")
    else (true, none)

theorem pstrip_nil : pstrip [] = [] := rfl

/-- `validate_message` accepts exactly the contents whose stripped form is
non-empty and within the length bound. -/
theorem validate_message_spec (content : List Char) :
    (validate_message content).1 = true ↔
      pstrip content ≠ [] ∧ (pstrip content).length ≤ MAX_MESSAGE_LENGTH := by
  unfold validate_message
  by_cases h0 : content.isEmpty
  · have : content = [] := List.isEmpty_iff.1 h0
    subst this
    simp [pstrip_nil]
  · rw [if_neg h0]
    by_cases h1 : (pstrip content).isEmpty
    · have hnil := List.isEmpty_iff.1 h1
      simp [h1, hnil]
    · have hne : pstrip content ≠ [] := fun hh => h1 (List.isEmpty_iff.2 hh)
      by_cases h2 : MAX_MESSAGE_LENGTH < (pstrip content).length
      · simp [h1, h2, hne]
      · simp [h1, h2, hne]
        exact le_of_not_lt h2

/-- A failing `validate_message` always carries a detail string. -/
theorem validate_message_detail (content : List Char)
    (h : (validate_message content).1 = false) :
    ∃ d, (validate_message content).2 = some d := by
  unfold validate_message at h ⊢
  by_cases h0 : content.isEmpty
  · simp [h0]
  · rw [if_neg h0] at h ⊢
    by_cases h1 : (pstrip content).isEmpty
    · simp [h1]
    · by_cases h2 : MAX_MESSAGE_LENGTH < (pstrip content).length
      · simp [h1, h2]
      · simp [h1, h2] at h

structure HandleResult where
  toSender : List Event
  store : List MsgRec
  rl : List Int
  broadcasts : List (Nat × Event)
  continued : Bool
  deriving Repr

/-- The `message` branch of the session loop (routes.py 670-758): strip
the content, validate it, consult the rate limiter, resolve a given reply
target to a message of the same room, persist (the store assigns
`next_id` and `created_at`), build the reply summary and hand the full
message event to the broadcast engine for the whole room.  Validation,
rate-limit and reply-target failures send one `error` event to the sender
only and continue the loop.  A missing author row for the parent message
would raise in Python; it is modelled as an absent summary and excluded
by the well-formedness hypotheses of the theorems below. -/
def handle_message (room_id user_id : Nat) (user : UserRec)
    (rawContent : List Char) (message_type : String) (reply_to : Option Nat)
    (now created_at : Int) (rl : List Int) (store : List MsgRec)
    (users : List UserRec) (next_id : Nat) : HandleResult :=
  let content := pstrip rawContent
  let v := validate_message content
  if v.1 = false then
    ⟨[Event.error (v.2.getD "")], store, rl, [], true⟩
  else
    let rr := check_rate_limit now rl
    if rr.allowed = false then
      ⟨[Event.error (rr.detail.getD "")], store, rr.stored, [], true⟩
    else
      let replyMissing : Bool :=
        match reply_to with
        | some p => !(p == 0) &&
            (store.find? (fun m => m.id == p && m.room_id == room_id)).isNone
        | none => false
      if replyMissing then
        ⟨[Event.error "Parent message not found"], store, rr.stored, [], true⟩
      else
        let rto : Option Nat :=
          match reply_to with
          | some p => if p == 0 then none else some p
          | none => none
        let message : MsgRec :=
          ⟨next_id, room_id, user_id, content, message_type, rto, some [],
           created_at⟩
        let newStore := store ++ [message]
        let reply_to_info : Option ReplyInfo :=
          match message.reply_to with
          | some p =>
            match newStore.find? (fun m => m.id == p) with
            | some parent =>
              match users.find? (fun u => u.id == parent.user_id) with
              | some author =>
                some ⟨parent.id,
                  (if 50 < parent.content.length then
                    parent.content.take 50 ++ "...".data
                  else parent.content),
                  author.display_name⟩
              | none => none
            | none => none
          | none => none
        let payload : MsgPayload :=
          ⟨message.id, user_id, user.username, user.display_name,
           message.content, message.created_at, message.message_type,
           message.reactions.getD [], message.reply_to, reply_to_info⟩
        ⟨[], newStore, rr.stored, [(room_id, Event.chat payload)], true⟩

theorem handle_message_invalid {room_id user_id : Nat} {user : UserRec}
    {rawContent : List Char} {message_type : String} {reply_to : Option Nat}
    {now created_at : Int} {rl : List Int} {store : List MsgRec}
    {users : List UserRec} {next_id : Nat}
    (hv : (validate_message (pstrip rawContent)).1 = false) :
    handle_message room_id user_id user rawContent message_type reply_to
      now created_at rl store users next_id =
      ⟨[Event.error ((validate_message (pstrip rawContent)).2.getD "")],
       store, rl, [], true⟩ := by
  simp only [handle_message]
  rw [if_pos hv]

theorem handle_message_rate_limited {room_id user_id : Nat} {user : UserRec}
    {rawContent : List Char} {message_type : String} {reply_to : Option Nat}
    {now created_at : Int} {rl : List Int} {store : List MsgRec}
    {users : List UserRec} {next_id : Nat}
    (hv : (validate_message (pstrip rawContent)).1 = true)
    (hr : (check_rate_limit now rl).allowed = false) :
    handle_message room_id user_id user rawContent message_type reply_to
      now created_at rl store users next_id =
      ⟨[Event.error ((check_rate_limit now rl).detail.getD "")],
       store, (check_rate_limit now rl).stored, [], true⟩ := by
  simp only [handle_message]
  rw [if_neg (by rw [hv]; simp), if_pos hr]

/-- C6: an inbound message whose content is empty after trimming or longer
than 2000 characters (or whose sender is over the rate budget) makes the
handler send one error event to the sender only, persist nothing,
broadcast nothing, and continue the loop. -/
theorem message_validation_rejects_locally (room_id user_id : Nat)
    (user : UserRec) (rawContent : List Char) (message_type : String)
    (reply_to : Option Nat) (now created_at : Int) (rl : List Int)
    (store : List MsgRec) (users : List UserRec) (next_id : Nat)
    (h : pstrip rawContent = [] ∨
      MAX_MESSAGE_LENGTH < (pstrip rawContent).length ∨
      (check_rate_limit now rl).allowed = false) :
    (∃ d, (handle_message room_id user_id user rawContent message_type
        reply_to now created_at rl store users next_id).toSender =
        [Event.error d])
    ∧ (handle_message room_id user_id user rawContent message_type reply_to
        now created_at rl store users next_id).store = store
    ∧ (handle_message room_id user_id user rawContent message_type reply_to
        now created_at rl store users next_id).broadcasts = []
    ∧ (handle_message room_id user_id user rawContent message_type reply_to
        now created_at rl store users next_id).continued = true := by
  cases hv : (validate_message (pstrip rawContent)).1 with
  | false =>
    rw [handle_message_invalid hv]
    exact ⟨⟨(validate_message (pstrip rawContent)).2.getD "", rfl⟩,
      rfl, rfl, rfl⟩
  | true =>
    have hspec := (validate_message_spec (pstrip rawContent)).1 hv
    rw [pstrip_idem] at hspec
    have hr : (check_rate_limit now rl).allowed = false := by
      rcases h with h | h | h
      · exact absurd h hspec.1
      · exact absurd h (not_lt.2 hspec.2)
      · exact h
    rw [handle_message_rate_limited hv hr]
    exact ⟨⟨(check_rate_limit now rl).detail.getD "", rfl⟩, rfl, rfl, rfl⟩

/-- C6 witness: an empty message is rejected locally; nothing is persisted
and nothing is broadcast. -/
theorem message_validation_rejects_locally_witness :
    (handle_message 1 5 ⟨5, "u", "U"⟩ [] "text" none 0 0 [] [] [] 1).broadcasts
        = []
    ∧ (handle_message 1 5 ⟨5, "u", "U"⟩ [] "text" none 0 0 [] [] [] 1).store
        = [] := by
  have h := message_validation_rejects_locally 1 5 ⟨5, "u", "U"⟩ [] "text"
    none 0 0 [] [] [] 1 (Or.inl rfl)
  exact ⟨h.2.2.1, h.2.1⟩

theorem handle_message_reply_missing {room_id user_id p : Nat}
    {user : UserRec} {rawContent : List Char} {message_type : String}
    {now created_at : Int} {rl : List Int} {store : List MsgRec}
    {users : List UserRec} {next_id : Nat}
    (hv : (validate_message (pstrip rawContent)).1 = true)
    (hr : (check_rate_limit now rl).allowed = true)
    (hp : p ≠ 0)
    (hnone : store.find? (fun m => m.id == p && m.room_id == room_id) = none) :
    handle_message room_id user_id user rawContent message_type (some p)
      now created_at rl store users next_id =
      ⟨[Event.error "Parent message not found"], store,
       (check_rate_limit now rl).stored, [], true⟩ := by
  have hp' : (p == 0) = false := by simp [hp]
  simp only [handle_message]
  rw [if_neg (by rw [hv]; simp), if_neg (by rw [hr]; simp),
    if_pos (by simp [hp', hnone])]

theorem handle_message_reply_success {room_id user_id p : Nat}
    {user : UserRec} {rawContent : List Char} {message_type : String}
    {now created_at : Int} {rl : List Int} {store : List MsgRec}
    {users : List UserRec} {next_id : Nat} {parent : MsgRec} {author : UserRec}
    (hv : (validate_message (pstrip rawContent)).1 = true)
    (hr : (check_rate_limit now rl).allowed = true)
    (hp : p ≠ 0)
    (hids : (store.map MsgRec.id).Nodup)
    (hfind : store.find? (fun m => m.id == p && m.room_id == room_id) =
      some parent)
    (hauthor : users.find? (fun u => u.id == parent.user_id) = some author) :
    handle_message room_id user_id user rawContent message_type (some p)
      now created_at rl store users next_id =
      ⟨[],
       store ++ [⟨next_id, room_id, user_id, pstrip rawContent, message_type,
         some p, some [], created_at⟩],
       (check_rate_limit now rl).stored,
       [(room_id, Event.chat
         ⟨next_id, user_id, user.username, user.display_name,
          pstrip rawContent, created_at, message_type, [], some p,
          some ⟨parent.id,
            (if 50 < parent.content.length then
              parent.content.take 50 ++ "...".data
            else parent.content),
            author.display_name⟩⟩)],
       true⟩ := by
  have hp' : (p == 0) = false := by simp [hp]
  have hfid := find_id_of_find_room hids hfind
  have hfid' : (store ++ [(⟨next_id, room_id, user_id, pstrip rawContent,
      message_type, some p, some [], created_at⟩ : MsgRec)]).find?
      (fun m => m.id == p) = some parent := by
    rw [List.find?_append, hfid]
    rfl
  simp only [handle_message]
  rw [if_neg (by rw [hv]; simp), if_neg (by rw [hr]; simp),
    if_neg (by simp [hp', hfind])]
  simp only [hp', Bool.false_eq_true, if_false, hfid', hauthor,
    Option.getD_some]

/-- C7: a message event whose reply target does not resolve to a message of
the same room is rejected with a local error, persisting and broadcasting
nothing; when a same-room parent exists, the new message is persisted and
the broadcast's `reply_to_message` summary carries the parent's content
truncated to 50 characters (with an ellipsis appended when truncated) and
the parent author's display name. -/
theorem reply_target_validation (room_id user_id p next_id : Nat)
    (user : UserRec) (rawContent : List Char) (message_type : String)
    (now created_at : Int) (rl : List Int) (store : List MsgRec)
    (users : List UserRec) (parent : MsgRec) (author : UserRec)
    (hv : (validate_message (pstrip rawContent)).1 = true)
    (hr : (check_rate_limit now rl).allowed = true)
    (hp : p ≠ 0) :
    (store.find? (fun m => m.id == p && m.room_id == room_id) = none →
      (handle_message room_id user_id user rawContent message_type (some p)
        now created_at rl store users next_id).toSender =
        [Event.error "Parent message not found"]
      ∧ (handle_message room_id user_id user rawContent message_type (some p)
          now created_at rl store users next_id).store = store
      ∧ (handle_message room_id user_id user rawContent message_type (some p)
          now created_at rl store users next_id).broadcasts = [])
    ∧ ((store.map MsgRec.id).Nodup →
      store.find? (fun m => m.id == p && m.room_id == room_id) = some parent →
      users.find? (fun u => u.id == parent.user_id) = some author →
      (handle_message room_id user_id user rawContent message_type (some p)
        now created_at rl store users next_id).store =
        store ++ [⟨next_id, room_id, user_id, pstrip rawContent, message_type,
          some p, some [], created_at⟩]
      ∧ (handle_message room_id user_id user rawContent message_type (some p)
          now created_at rl store users next_id).broadcasts =
        [(room_id, Event.chat
          ⟨next_id, user_id, user.username, user.display_name,
           pstrip rawContent, created_at, message_type, [], some p,
           some ⟨parent.id,
             (if 50 < parent.content.length then
               parent.content.take 50 ++ "...".data
             else parent.content),
             author.display_name⟩⟩)]) := by
  constructor
  · intro hnone
    rw [handle_message_reply_missing hv hr hp hnone]
    exact ⟨rfl, rfl, rfl⟩
  · intro hids hfind hauthor
    rw [handle_message_reply_success hv hr hp hids hfind hauthor]
    exact ⟨rfl, rfl⟩

/-- C7 witness: replying to a same-room parent with 60-character content
persists the reply and broadcasts a summary truncated to 50 characters
plus an ellipsis, with the parent author's display name. -/
theorem reply_target_validation_witness :
    (handle_message 1 5 ⟨5, "u", "U"⟩ [Char.ofNat 104] "text" (some 7) 0 9 []
      [⟨7, 1, 3, List.replicate 60 (Char.ofNat 120), "text", none, some [], 5⟩]
      [⟨3, "bob", "Bob"⟩] 8).broadcasts =
      [(1, Event.chat ⟨8, 5, "u", "U", [Char.ofNat 104], 9, "text", [], some 7,
        some ⟨7, List.replicate 50 (Char.ofNat 120) ++ "...".data, "Bob"⟩⟩)] := by
  have h := reply_target_validation 1 5 7 8 ⟨5, "u", "U"⟩ [Char.ofNat 104]
    "text" 0 9 []
    [⟨7, 1, 3, List.replicate 60 (Char.ofNat 120), "text", none, some [], 5⟩]
    [⟨3, "bob", "Bob"⟩]
    ⟨7, 1, 3, List.replicate 60 (Char.ofNat 120), "text", none, some [], 5⟩
    ⟨3, "bob", "Bob"⟩ (by decide) (by decide) (by decide)
  rw [(h.2 (by decide) (by decide) (by decide)).2]
  decide
